import Mathlib

/-!
Verification development for the cluster topology and routing core of
redis-cluster-proxy (`src/cluster.c`).  The C code is shallowly embedded:
pure helpers become Lean functions, the mutable cluster / request state is
threaded explicitly, machine integers are `Nat`/`Int` with explicit
reductions modulo `2 ^ w` where the C code relies on wrap-around, and the
network is a parameter (an environment mapping an address to the optional
`CLUSTER NODES` reply text).
-/

set_option maxRecDepth 10000

/-! ## Byte-level helpers shared by the embedding -/

/-- First index of byte `b` in `key`, or `key.length` when absent.  This is the
C scan `for (s = 0; s < keylen; s++) if (key[s] == b) break;`. -/
def firstIdx (b : Nat) : List Nat → Nat
  | [] => 0
  | x :: xs => if x = b then 0 else 1 + firstIdx b xs

/-- Modelled from the spec: the repository only declares
`uint16_t crc16(const char *buf, int len);` (its implementation lives outside
`src/`); the spec fixes the contract as CRC-16/CCITT of a byte range
(polynomial `0x1021`, init `0`, no reflection, as used for the 16384-slot
keyspace).  One shift-and-conditional-xor round on a 16-bit register. -/
def crc16Round (crc : Nat) : Nat :=
  if crc % 65536 ≥ 32768 then ((crc * 2) ^^^ 0x1021) % 65536
  else (crc * 2) % 65536

/-- Modelled from the spec: fold one input byte into the CRC-16/CCITT
register (xor into the high byte, then eight shift rounds). -/
def crc16Byte (crc b : Nat) : Nat :=
  let crc := crc ^^^ ((b % 256) * 256)
  crc16Round (crc16Round (crc16Round (crc16Round
    (crc16Round (crc16Round (crc16Round (crc16Round crc)))))))

/-- Modelled from the spec: CRC-16/CCITT of a byte string, init 0. -/
def crc16 (buf : List Nat) : Nat :=
  buf.foldl crc16Byte 0

/-- `clusterKeyHashSlot` (`cluster.c:58-77`).  Keys are byte strings; `123`
and `125` are the bytes of the open and close curly brace.  If the key
contains a brace-delimited non-empty tag, only the tag is hashed; otherwise
the whole key is hashed.  The C mask `& 0x3FFF` keeps the low 14 bits,
i.e. reduces modulo 16384. -/
def clusterKeyHashSlot (key : List Nat) : Nat :=
  let keylen := key.length
  let s := firstIdx 123 key
  if s = keylen then crc16 key % 16384
  else
    let e := s + 1 + firstIdx 125 (key.drop (s + 1))
    if e = keylen ∨ e = s + 1 then crc16 key % 16384
    else crc16 ((key.drop (s + 1)).take (e - (s + 1))) % 16384

/-! ## C string primitives used by the topology loader

The `CLUSTER NODES` reply and all parsed fields are modelled as `List Char`.
The C code destructively splits strings with `strchr`/`strstr`; here each
split returns the pieces. -/

/-- Split on every occurrence of `c`, keeping empty chunks (the C loop
`while ((p = strchr(line, ch)))` visits exactly these chunks). -/
def splitOnChar (c : Char) : List Char → List (List Char)
  | [] => [[]]
  | x :: xs =>
    if x = c then [] :: splitOnChar c xs
    else
      match splitOnChar c xs with
      | [] => [[x]]
      | h :: t => (x :: h) :: t

/-- `leadsWith needle s`: `needle` occurs at the very front of `s`. -/
def leadsWith : List Char → List Char → Bool
  | [], _ => true
  | _ :: _, [] => false
  | a :: as, b :: bs => a = b && leadsWith as bs

/-- `strstr`: split `hay` around the first occurrence of `needle`, returning
(part before, part after the needle); `none` when `needle` does not occur. -/
def strstrSplit (needle : List Char) : List Char → Option (List Char × List Char)
  | [] => if needle.isEmpty then some ([], []) else none
  | x :: xs =>
    if leadsWith needle (x :: xs) then some ([], (x :: xs).drop needle.length)
    else
      match strstrSplit needle xs with
      | some (pre, post) => some (x :: pre, post)
      | none => none

/-- `strchr`: split `s` around the first occurrence of the character `c`. -/
def strchrSplit (c : Char) : List Char → Option (List Char × List Char)
  | [] => none
  | x :: xs =>
    if x = c then some ([], xs)
    else
      match strchrSplit c xs with
      | some (pre, post) => some (x :: pre, post)
      | none => none

/-- Truncate `s` at the first occurrence of `c` (the C idiom
`if ((p = strchr(s, c))) *p = '\0';`); the whole string when absent. -/
def takeUntilChar (c : Char) (s : List Char) : List Char :=
  match strchrSplit c s with
  | some (pre, _) => pre
  | none => s

/-- Leading decimal digits of `s` folded into `acc` (the digit-consuming
loop inside `atoi`). -/
def digitsVal (acc : Nat) : List Char → Nat
  | [] => acc
  | c :: cs => if c.isDigit then digitsVal (acc * 10 + (c.toNat - 48)) cs else acc

/-- C `atoi`: skip leading white space, read an optional sign, then leading
digits; `0` when no digits are present. -/
def catoi (s : List Char) : Int :=
  let s := s.dropWhile (fun c =>
    c = ' ' ∨ c = '\t' ∨ c = '\n' ∨ c = '\x0d' ∨ c = '\x0b' ∨ c = '\x0c')
  match s with
  | '-' :: rest => - (digitsVal 0 rest : Nat)
  | '+' :: rest => (digitsVal 0 rest : Nat)
  | _ => (digitsVal 0 s : Nat)

/-- `hasSub needle hay`: C `strstr(hay, needle) != NULL`. -/
def hasSub (needle hay : List Char) : Bool :=
  (strstrSplit needle hay).isSome

/-- The iterations of the C loop
`while (start <= stop) node->slots[node->slots_count++] = start++;`:
`n` remaining iterations starting at `start`. -/
def intRangeAux : Nat → Int → List Int
  | 0, _ => []
  | n + 1, start => start :: intRangeAux n (start + 1)

/-- The C loop `while (start <= stop) node->slots[node->slots_count++] = start++;`
appends exactly the integers `start, start+1, …, stop` (empty when
`stop < start`). -/
def intRange (start stop : Int) : List Int :=
  intRangeAux (stop + 1 - start).toNat start

/-- Truncation of a C `int` to `uint32_t` (`htonl` reinterprets the slot as a
big-endian unsigned 32-bit key; on the radix tree these 4-byte keys order
exactly like the `Nat` value of the truncation). -/
def u32 (i : Int) : Nat := (i % (2 ^ 32)).toNat

/-! ## The slot map and the reprocess map

The radix tree `cluster->slots_map` stores 4-byte big-endian keys, so its
byte-lexicographic order is the numeric order of the `u32` keys: it is
modelled as an association list sorted by key, values being node identifiers.
`cluster->requests_to_reprocess` stores variable-length string keys in
byte-lexicographic order. -/

/-- `raxInsert` on the slot map: sorted insert, overwriting an equal key. -/
def raxInsertN : List (Nat × Nat) → Nat → Nat → List (Nat × Nat)
  | [], k, v => [(k, v)]
  | (k', v') :: rest, k, v =>
    if k < k' then (k, v) :: (k', v') :: rest
    else if k = k' then (k, v) :: rest
    else (k', v') :: raxInsertN rest k v

/-- `raxSeek(">=", key)` followed by `raxNext`: the first entry whose key is
`≥ k` (the map being sorted, the least such entry); `none` when every key is
below `k` — the seek does not wrap around. -/
def seekGe : List (Nat × Nat) → Nat → Option (Nat × Nat)
  | [], _ => none
  | (k', v') :: rest, k => if k ≤ k' then some (k', v') else seekGe rest k

/-- Byte-lexicographic strict order on string keys (the radix tree order;
a proper prefix precedes its extensions). -/
def keyLtB : List Char → List Char → Bool
  | [], [] => false
  | [], _ :: _ => true
  | _ :: _, [] => false
  | a :: as, b :: bs =>
    if a.toNat < b.toNat then true
    else if b.toNat < a.toNat then false
    else keyLtB as bs

/-- `raxInsert` on the reprocess map: sorted insert, overwriting an equal key. -/
def sInsert : List (List Char × Nat) → List Char → Nat → List (List Char × Nat)
  | [], k, v => [(k, v)]
  | (k', v') :: rest, k, v =>
    if keyLtB k k' then (k, v) :: (k', v') :: rest
    else if k = k' then (k, v) :: rest
    else (k', v') :: sInsert rest k v

/-- `raxRemove` on the reprocess map: drop the entry with this exact key. -/
def sRemove : List (List Char × Nat) → List Char → List (List Char × Nat)
  | [], _ => []
  | (k', v') :: rest, k => if k' = k then rest else (k', v') :: sRemove rest k

/-! ## Data model: connections, nodes, clusters

Node and cluster objects are identified by ghost numeric identifiers playing
the role of the C pointers; `next_node_id` is the per-cluster allocator for
node identities.  Request queues hold request identifiers into a separate
request store (requests are shared between queues, the reprocess maps and
client lists, exactly as the C pointers are). -/

/-- `redisClusterConnection` (`cluster.c:81-101`): transport state plus the
two FIFO queues.  The `context` transport handle is external; only its
presence is mirrored by `connected`. -/
structure RConn where
  connected : Bool
  has_read_handler : Bool
  authenticating : Bool
  authenticated : Bool
  requests_pending : List Nat
  requests_to_send : List Nat
  deriving Repr, DecidableEq

/-- The connection built by `createClusterConnection`. -/
def createClusterConnection : RConn :=
  { connected := false, has_read_handler := false, authenticating := false,
    authenticated := false, requests_pending := [], requests_to_send := [] }

/-- `clusterNode` (fields populated by `createClusterNode`,
`clusterNodeLoadInfo` and `duplicateClusterNode`).  `slots` keeps the first
`slots_count` entries of the C array (its only observed part); `migrating`
and `importing` are the flat pair arrays of strings. -/
structure CNode where
  id : Nat
  ip : List Char
  port : Int
  name : Option (List Char)
  flags : Int
  is_replica : Bool
  replicate : Option (List Char)
  replicas_count : Int
  slots : List Int
  migrating : List (List Char)
  importing : List (List Char)
  duplicated_from : Option Nat
  conn : RConn
  deriving Repr, DecidableEq

/-- `redisCluster` (`cluster.c:130-157`).  `cid` is the ghost identity of the
cluster object (the C pointer); `duplicates` and `duplicated_from` hold such
identities.  `next_node_id` allocates node identities. -/
structure ClusterState where
  cid : Nat
  thread_id : Int
  nodes : List CNode
  slots_map : List (Nat × Nat)
  requests_to_reprocess : List (List Char × Nat)
  is_updating : Bool
  update_required : Bool
  broken : Bool
  duplicated_from : Option Nat
  duplicates : List Nat
  next_node_id : Nat
  deriving Repr, DecidableEq

/-- `createCluster` (`cluster.c:130-157`): everything empty, flags cleared. -/
def createCluster (cid : Nat) (thread_id : Int) : ClusterState :=
  { cid, thread_id, nodes := [], slots_map := [], requests_to_reprocess := [],
    is_updating := false, update_required := false, broken := false,
    duplicated_from := none, duplicates := [], next_node_id := 0 }

/-- `createClusterNode` (`cluster.c:297-320`): a zero-initialised node with a
fresh connection.  `sdsnew(NULL)` yields the empty string, so `ip` is never
null — a `none` argument (C `NULL`) becomes `[]`. -/
def createClusterNode (c : ClusterState) (ip : Option (List Char)) (port : Int) :
    ClusterState × CNode :=
  let node : CNode :=
    { id := c.next_node_id, ip := ip.getD [], port, name := none, flags := 0,
      is_replica := false, replicate := none, replicas_count := 0, slots := [],
      migrating := [], importing := [], duplicated_from := none,
      conn := createClusterConnection }
  ({ c with next_node_id := c.next_node_id + 1 }, node)

/-- `mapSlot` (`cluster.c:392-398`): insert the node under the big-endian
4-byte key of the slot. -/
def mapSlot (cluster : ClusterState) (slot : Int) (nodeId : Nat) : ClusterState :=
  { cluster with slots_map := raxInsertN cluster.slots_map (u32 slot) nodeId }

/-- `searchNodeBySlot` (`cluster.c:613-626`): seek the first slot-map entry
with key `≥` the slot and return its node (identity); `none` when the seek
finds nothing. -/
def searchNodeBySlot (cluster : ClusterState) (slot : Int) : Option Nat :=
  (seekGe cluster.slots_map (u32 slot)).map (fun e => e.2)

/-- `getNodeByKey` (`cluster.c:628-636`): hash the key, seek the node; the
`getslot` out-parameter is written only when a node is found (its input
value is returned unchanged otherwise). -/
def getNodeByKey (cluster : ClusterState) (key : List Nat) (getslot : Int) :
    Option Nat × Int :=
  let slot : Int := clusterKeyHashSlot key
  match searchNodeBySlot cluster slot with
  | some n => (some n, slot)
  | none => (none, getslot)

/-- `getFirstMappedNode` (`cluster.c:638-649`): first entry of the slot map. -/
def getFirstMappedNode (cluster : ClusterState) : Option Nat :=
  (cluster.slots_map.head?).map (fun e => e.2)

/-! ## Topology loader (`clusterNodeLoadInfo`, `cluster.c:400-567`)

The network is a parameter: `NetEnv` maps an address (`ip`, `port`) to
`none` when connecting fails, `some none` when the `CLUSTER NODES` command
fails or returns an error reply, and `some (some text)` for a successful
reply.  The C `ip` may be `NULL` (hence `Option`). -/

def NetEnv := Option (List Char) → Int → Option (Option (List Char))

/-- One slot-spec token of a `myself` record (`cluster.c:510-559`):
`[slot->-dst]` appends a migrating pair, `[slot-<-src]` an importing pair,
`a-b` maps both endpoints and appends the whole range to `slots`, and a bare
non-empty token maps and appends the single slot. -/
def processSlotToken (st : ClusterState × CNode) (tok : List Char) :
    ClusterState × CNode :=
  let c := st.1
  let node := st.2
  match tok with
  | '[' :: slotsdef =>
    match strstrSplit ['-', '>', '-'] slotsdef with
    | some (slotPart, rest) =>
      let dst := takeUntilChar ']' rest
      (c, { node with migrating := node.migrating ++ [slotPart, dst] })
    | none =>
      match strstrSplit ['-', '<', '-'] slotsdef with
      | some (slotPart, rest) =>
        let src := takeUntilChar ']' rest
        (c, { node with importing := node.importing ++ [slotPart, src] })
      | none => (c, node)
  | _ =>
    match strchrSplit '-' tok with
    | some (pre, post) =>
      let start := catoi pre
      let stop := catoi post
      let c := mapSlot c start node.id
      let c := mapSlot c stop node.id
      (c, { node with slots := node.slots ++ intRange start stop })
    | none =>
      if tok.isEmpty then (c, node)
      else
        let slot := catoi tok
        let node := { node with slots := node.slots ++ [slot] }
        (mapSlot c slot node.id, node)

/-- The `host:port[@bus_port]` parse of the `addr` field
(`cluster.c:468-478`): without a `':'` the ip stays NULL and the port `0`;
otherwise the part before the first `':'` is the ip and the part after it,
truncated at the first `'@'`, feeds `atoi`. -/
def parseAddr (addr : List Char) : Option (List Char) × Int :=
  match strchrSplit ':' addr with
  | some (iphost, rest) => (some iphost, catoi (takeUntilChar '@' rest))
  | none => (none, 0)

/-- The `myself`-record field updates of `clusterNodeLoadInfo`
(`cluster.c:479-496`) on the parsed field list: adopt the record's `name`
when the node is still unnamed (the address-adoption branch is dead code
because `sdsnew` never yields a NULL `ip`), and derive `is_replica` from the
`slave` flag or a `master_id` whose first byte differs from `'-'` (an absent
`master_id` — fewer than five fields — counts as NULL). -/
def myselfNodeUpdate (node : CNode) (parts : List (List Char)) : CNode :=
  let node :=
    if node.name = none then { node with name := some parts.headI } else node
  let masterRep : Bool :=
    if parts.length ≥ 5 then
      match parts.getD 3 [] with
      | [] => true
      | ch :: _ => ch ≠ '-'
    else false
  let isRep := hasSub ['s', 'l', 'a', 'v', 'e'] (parts.getD 2 []) || masterRep
  { node with is_replica := isRep }

/-- One line of the `CLUSTER NODES` reply (`cluster.c:441-561`).  The field
loop consumes at most eight space-separated tokens
(`name addr flags master_id …`), leaving the ninth field onward as slot
specs.  `none` signals the `missing flags` abort (fewer than four fields;
`addr` is then always present, so the separate `missing addr` abort is
unreachable).  A non-`myself` record only creates a friend skeleton when a
friends sink is in use. -/
def processLine (c : ClusterState) (node : CNode) (withFriends : Bool)
    (friends : List CNode) (line : List Char) :
    Option (ClusterState × CNode × List CNode) :=
  let parts := splitOnChar ' ' line
  if parts.length < 4 then none
  else
    if hasSub ['m', 'y', 's', 'e', 'l', 'f'] (parts.getD 2 []) then
      let node := myselfNodeUpdate node parts
      if parts.length ≥ 9 then
        let st := (parts.drop 8).foldl processSlotToken (c, node)
        some (st.1, st.2, friends)
      else some (c, node, friends)
    else
      if withFriends then
        let ipPort := parseAddr (parts.getD 1 [])
        let cf := createClusterNode c ipPort.1 ipPort.2
        some (cf.1, node, friends ++ [cf.2])
      else some (c, node, friends)

/-- Outcome of loading one node: the mutated cluster, the mutated node, the
friend skeletons discovered so far, and the success flag. -/
structure LoadResult where
  c : ClusterState
  node : CNode
  friends : List CNode
  ok : Bool

/-- Process the reply lines in order; a malformed line aborts, keeping all
mutations made so far (the C `goto cleanup` path). -/
def processLines (c : ClusterState) (node : CNode) (withFriends : Bool)
    (friends : List CNode) : List (List Char) → LoadResult
  | [] => { c, node, friends, ok := true }
  | l :: ls =>
    match processLine c node withFriends friends l with
    | none => { c, node, friends, ok := false }
    | some (c', node', friends') => processLines c' node' withFriends friends' ls

/-- The reply is consumed one `'\n'`-terminated line at a time; a trailing
chunk without a newline is never processed. -/
def linesOf (reply : List Char) : List (List Char) :=
  (splitOnChar '\n' reply).dropLast

/-- `clusterNodeLoadInfo` (`cluster.c:400-567`).  A `none` reply stands for
any of the C failure exits before parsing (connect error, command error,
error-typed reply); no claim observes the transport flags of a failed load,
so they are left untouched there.  The optional AUTH exchange is external
and does not alter the control flow (auth failure is logged, not fatal). -/
def clusterNodeLoadInfo (c : ClusterState) (node : CNode) (withFriends : Bool)
    (reply? : Option (List Char)) : LoadResult :=
  match reply? with
  | none => { c, node, friends := [], ok := false }
  | some reply =>
    let node := { node with conn := { node.conn with connected := true } }
    processLines c node withFriends [] (linesOf reply)

/-- The friend-visiting loop of `fetchClusterConfiguration`
(`cluster.c:595-607`): load each friend with a null sink; on success append
it to the node list, on failure free it and abort. -/
def loadFriends (env : NetEnv) (c : ClusterState) : List CNode → ClusterState × Bool
  | [] => (c, true)
  | f :: fs =>
    let r := clusterNodeLoadInfo c f false ((env (some f.ip) f.port).bind id)
    if r.ok then loadFriends env { r.c with nodes := r.c.nodes ++ [r.node] } fs
    else (r.c, false)

/-- `fetchClusterConfiguration` (`cluster.c:569-611`) over the unix-socket-free
path (every caller in this file passes `hostsocket = NULL`): connect to the
seed, create and load the seed node (it stays in the node list even when its
load fails), then visit the discovered friends. -/
def fetchClusterConfiguration (env : NetEnv) (c : ClusterState)
    (ip : Option (List Char)) (port : Int) : ClusterState × Bool :=
  match env ip port with
  | none => (c, false)
  | some reply? =>
    let cf := createClusterNode c ip port
    let r := clusterNodeLoadInfo cf.1 cf.2 true reply?
    let c := { r.c with nodes := r.c.nodes ++ [r.node] }
    if r.ok then loadFriends env c r.friends else (c, false)

/-! ## Requests, clients, and the proxy-side state

`clientRequest` and `client` live outside `src/cluster.c` but their fields
used here (`client->id`, `req->id`, `node`, `slot`, `written`,
`need_reprocessing`, `has_write_handler`, `parent_request`,
`child_requests`, `client->requests_to_reprocess`) are fixed by the spec's
external-interface contract.  `rid` is the ghost identity (the C pointer)
under which a request is shared between queues, maps and lists. -/

structure CRequest where
  rid : Nat
  client_id : Int
  req_id : Int
  need_reprocessing : Bool
  node : Option Nat
  slot : Int
  written : Int
  has_write_handler : Bool
  parent_request : Option Nat
  child_requests : Option (List Nat)
  deriving Repr, DecidableEq

structure CClient where
  id : Int
  requests_to_reprocess : List Nat
  deriving Repr, DecidableEq

/-- The cluster together with the request store and the clients it can
reach through request pointers. -/
structure ProxyState where
  cluster : ClusterState
  reqs : List CRequest
  clients : List CClient
  deriving Repr, DecidableEq

/-- Dereference a request pointer. -/
def getReq (ps : ProxyState) (rid : Nat) : Option CRequest :=
  ps.reqs.find? (fun r => r.rid = rid)

/-- Mutate the request with identity `rid` (no-op when absent: the C code
only ever follows valid pointers, which the claims' hypotheses guarantee). -/
def setReq (ps : ProxyState) (rid : Nat) (f : CRequest → CRequest) : ProxyState :=
  { ps with reqs := ps.reqs.map (fun r => if r.rid = rid then f r else r) }

/-- Mutate the client with identity `cid` (same remark as `setReq`). -/
def setClient (ps : ProxyState) (cid : Int) (f : CClient → CClient) : ProxyState :=
  { ps with clients := ps.clients.map (fun cl => if cl.id = cid then f cl else cl) }

/-- The composite reprocess key `"%PRId64:%PRId64"` of client id and
request id (`cluster.c:786-787`). -/
def reqKey (req : CRequest) : List Char :=
  (toString req.client_id).data ++ ':' :: (toString req.req_id).data

/-- The field writes of `clusterAddRequestToReprocess` (`cluster.c:782-785`):
flag for reprocessing, drop the node/slot assignment, reset the written
count. -/
def parkMutation (r : CRequest) : CRequest :=
  { r with need_reprocessing := true, node := none, slot := -1, written := 0 }

/-- Clearing `need_reprocessing` (`cluster.c:737` and `cluster.c:796`). -/
def clearReprocessing (r : CRequest) : CRequest :=
  { r with need_reprocessing := false }

/-- `clusterAddRequestToReprocess` (`cluster.c:780-792`): flag the request
for reprocessing, clear its node/slot/written, insert it into the cluster's
reprocess map under its composite key and append it to its client's
reprocess list. -/
def clusterAddRequestToReprocess (ps : ProxyState) (rid : Nat) : ProxyState :=
  match getReq ps rid with
  | none => ps
  | some req =>
    let ps := setReq ps rid parkMutation
    let key := reqKey req
    let ps := { ps with cluster := { ps.cluster with
      requests_to_reprocess := sInsert ps.cluster.requests_to_reprocess key rid } }
    setClient ps req.client_id (fun cl =>
      { cl with requests_to_reprocess := cl.requests_to_reprocess ++ [rid] })

/-- `clusterRemoveRequestToReprocess` (`cluster.c:794-802`): clear the
reprocessing flag and remove the composite key from the cluster's reprocess
map.  (The client's own list is left untouched by this function.) -/
def clusterRemoveRequestToReprocess (ps : ProxyState) (rid : Nat) : ProxyState :=
  match getReq ps rid with
  | none => ps
  | some req =>
    let ps := setReq ps rid clearReprocessing
    { ps with cluster := { ps.cluster with
      requests_to_reprocess := sRemove ps.cluster.requests_to_reprocess (reqKey req) } }

/-- `resetCluster` (`cluster.c:251-259`): free every node and the slot map,
re-create them empty; everything else (in particular the reprocess map) is
kept.  Allocation cannot fail in the model, so reset always succeeds. -/
def resetCluster (cluster : ClusterState) : ClusterState :=
  { cluster with slots_map := [], nodes := [] }

/-! ## `updateCluster` (`cluster.c:662-771`) -/

/-- The four `CLUSTER_RECONFIG_*` codes of `cluster.h` (only their
distinctness is observable; callers branch on the tags). -/
inductive ReconfigStatus where
  | WAIT
  | STARTED
  | ENDED
  | ERR
  deriving Repr, DecidableEq

/-- The `requests_to_send` walk of one non-replica node
(`cluster.c:685-696`): a mid-write request (`has_write_handler`) is counted
into `wait`; any other request is parked via
`clusterAddRequestToReprocess` and removed from the queue. -/
def parkToSend (ps : ProxyState) (keep : List Nat) (wait : Nat) :
    List Nat → ProxyState × List Nat × Nat
  | [] => (ps, keep, wait)
  | rid :: rest =>
    match getReq ps rid with
    | none => parkToSend ps (keep ++ [rid]) wait rest
    | some req =>
      if req.has_write_handler then parkToSend ps (keep ++ [rid]) (wait + 1) rest
      else parkToSend (clusterAddRequestToReprocess ps rid) keep wait rest

/-- Outcome of the counting-and-parking walk over the node list. -/
structure ParkResult where
  ps : ProxyState
  nodes : List CNode
  wait : Nat
  ip : Option (List Char)
  port : Int

/-- The node walk of `updateCluster` (`cluster.c:673-697`): remember the
first node's address as the re-discovery seed, skip replicas, count pending
requests, and walk each `requests_to_send` queue. -/
def countAndPark (ps : ProxyState) (acc : List CNode) (wait : Nat)
    (ip : Option (List Char)) (port : Int) : List CNode → ParkResult
  | [] => { ps, nodes := acc, wait, ip, port }
  | node :: rest =>
    let seedIp := match ip with | none => some node.ip | some i => some i
    let seedPort := match ip with | none => node.port | some _ => port
    if node.is_replica then
      countAndPark ps (acc ++ [node]) wait seedIp seedPort rest
    else
      let wait := wait + node.conn.requests_pending.length
      let pk := parkToSend ps [] wait node.conn.requests_to_send
      let node := { node with conn := { node.conn with requests_to_send := pk.2.1 } }
      countAndPark pk.1 (acc ++ [node]) pk.2.2 seedIp seedPort rest

/-- Clear the node back-reference of every relative of a replayed request
(`cluster.c:745-760`): the relatives are its own children, or — when it has
a parent — the parent's children, the parent itself also being cleared. -/
def nullifyRelatives (ps : ProxyState) (req : CRequest) : ProxyState :=
  match req.child_requests with
  | some rel => rel.foldl (fun a r => setReq a r (fun x => { x with node := none })) ps
  | none =>
    match req.parent_request with
    | some p =>
      let ps := setReq ps p (fun x => { x with node := none })
      match getReq ps p with
      | some preq =>
        match preq.child_requests with
        | some rel =>
          rel.foldl (fun a r => setReq a r (fun x => { x with node := none })) ps
        | none => ps
      | none => ps
    | none => ps

/-- Remove the first occurrence of `x` (C `listSearchKey` + `listDelNode`). -/
def listRemoveFirst (x : Nat) : List Nat → List Nat
  | [] => []
  | y :: ys => if y = x then ys else y :: listRemoveFirst x ys

/-- The replay loop of `updateCluster` (`cluster.c:735-762`): take the first
entry of the reprocess map, clear its reprocessing flag, remove it from the
map and from its client's reprocess list, null the relatives' node
back-references, and hand it to the external `processRequest` (the log of
handed requests, each with its node argument `NULL`, is returned).  The
re-seek after each removal makes the walk consume the map in key order, so
the loop is driven by the map head; `fuel` (the map size at entry) bounds
the recursion. -/
def replayLoop (ps : ProxyState) (acc : List CRequest) :
    Nat → ProxyState × List CRequest
  | 0 => (ps, acc)
  | fuel + 1 =>
    match ps.cluster.requests_to_reprocess with
    | [] => (ps, acc)
    | (k, rid) :: _ =>
      let ps := setReq ps rid clearReprocessing
      let ps := { ps with cluster := { ps.cluster with
        requests_to_reprocess := sRemove ps.cluster.requests_to_reprocess k } }
      match getReq ps rid with
      | none => replayLoop ps acc fuel
      | some req =>
        let ps := setClient ps req.client_id (fun cl =>
          { cl with requests_to_reprocess := listRemoveFirst rid cl.requests_to_reprocess })
        let ps := nullifyRelatives ps req
        match getReq ps rid with
        | none => replayLoop ps acc fuel
        | some handed => replayLoop ps (acc ++ [handed]) fuel

/-- `updateCluster` (`cluster.c:662-771`).  A broken cluster short-circuits
to `ERR`.  Otherwise: count and park, set `is_updating`; pending work means
`WAIT`; else reset, re-discover through `env` (failure marks the cluster
broken and yields `ERR`), clear the updating flags, and replay every parked
request.  The returned list logs the requests handed to the external
`processRequest` (always with a `NULL` node argument). -/
def updateCluster (env : NetEnv) (ps : ProxyState) :
    ProxyState × ReconfigStatus × List CRequest :=
  if ps.cluster.broken then (ps, ReconfigStatus.ERR, [])
  else
    let pr := countAndPark ps [] 0 none 0 ps.cluster.nodes
    let ps := { pr.ps with cluster := { pr.ps.cluster with
      nodes := pr.nodes, is_updating := true } }
    if pr.wait ≠ 0 then (ps, ReconfigStatus.WAIT, [])
    else
      let ps := { ps with cluster := resetCluster ps.cluster }
      let fr := fetchClusterConfiguration env ps.cluster pr.ip pr.port
      let ps := { ps with cluster := fr.1 }
      if fr.2 then
        let ps := { ps with cluster := { ps.cluster with
          is_updating := false, update_required := false } }
        let rp := replayLoop ps [] ps.cluster.requests_to_reprocess.length
        (rp.1, ReconfigStatus.ENDED, rp.2)
      else
        ({ ps with cluster := { ps.cluster with broken := true } },
          ReconfigStatus.ERR, [])

/-! ## Duplicator (`duplicateCluster`, `cluster.c:159-215` and
`duplicateClusterNode`, `cluster.c:322-356`) -/

/-- `raxFind` on a string-keyed map. -/
def sFind (m : List (List Char × Nat)) (k : List Char) : Option Nat :=
  (m.find? (fun e => e.1 = k)).map (fun e => e.2)

/-- `duplicateClusterNode` (`cluster.c:322-356`): a fresh node (fresh
disconnected connection) carrying copies of every scalar, string and array
field of the source, and a back-link to it. -/
def duplicateClusterNode (c : ClusterState) (source : CNode) : ClusterState × CNode :=
  let cn := createClusterNode c (some source.ip) source.port
  (cn.1, { cn.2 with
    duplicated_from := some source.id,
    name := source.name,
    flags := source.flags,
    replicas_count := source.replicas_count,
    is_replica := source.is_replica,
    replicate := source.replicate,
    slots := source.slots,
    migrating := source.migrating,
    importing := source.importing })

/-- The node-copy phase of `duplicateCluster` (`cluster.c:172-184`): copy
each source node in order, failing when a source node has no name, and index
the copies by name. -/
def dupNodes (dup : ClusterState) (nbn : List (List Char × Nat)) :
    List CNode → Option (ClusterState × List (List Char × Nat))
  | [] => some (dup, nbn)
  | sn :: rest =>
    let dn := duplicateClusterNode dup sn
    match dn.2.name with
    | none => none
    | some nm =>
      dupNodes { dn.1 with nodes := dn.1.nodes ++ [dn.2] } (sInsert nbn nm dn.2.id) rest

/-- The slot-map rebuild phase of `duplicateCluster` (`cluster.c:185-200`):
for each source entry, resolve the owning source node, look the copy up by
name, and insert it under the same key.  Failure when a source owner is
unnamed or not among the copies. -/
def dupSlots (dup : ClusterState) (nbn : List (List Char × Nat))
    (source : ClusterState) : List (Nat × Nat) → Option ClusterState
  | [] => some dup
  | (k, srcid) :: rest =>
    match source.nodes.find? (fun n => n.id = srcid) with
    | none => none
    | some srcnode =>
      match srcnode.name with
      | none => none
      | some nm =>
        match sFind nbn nm with
        | none => none
        | some did =>
          dupSlots { dup with slots_map := raxInsertN dup.slots_map k did } nbn source rest

/-- `duplicateCluster` (`cluster.c:159-215`): build the copy with the same
thread identity and a back-link, copy the nodes, rebuild the slot map, and
register the copy in the source's `duplicates` list.  `fresh_cid` is the
identity of the new cluster object. -/
def duplicateCluster (source : ClusterState) (fresh_cid : Nat) :
    Option (ClusterState × ClusterState) :=
  let cluster := { createCluster fresh_cid source.thread_id with
    duplicated_from := some source.cid }
  match dupNodes cluster [] source.nodes with
  | none => none
  | some (dup, nbn) =>
    match dupSlots dup nbn source source.slots_map with
    | none => none
    | some dup =>
      some (dup, { source with duplicates := source.duplicates ++ [fresh_cid] })

/-! ## Concrete scenario inputs used by witnesses and counterexamples -/

/-- A fresh node used as the loading target in concrete scenarios. -/
def node0 : CNode := (createClusterNode (createCluster 0 0) none 0).2

/-- A one-record node-list reply owning the contiguous range `0-2`. -/
def replyRange02 : List Char :=
  ("N 127.0.0.1:7000@17000 myself,master - 0 0 0 connected 0-2" ++ "\n").data

/-- A network where every address answers with `replyRange02`. -/
def envRange02 : NetEnv := fun _ _ => some (some replyRange02)

/-- The topology fetched from `envRange02`. -/
def fetchRange02 : ClusterState × Bool :=
  fetchClusterConfiguration envRange02 (createCluster 0 0)
    (some ("127.0.0.1").data) 7000

/-- A one-record reply whose only slot spec is the migrating token
`[42->-DSTID]`. -/
def replyMig : List Char :=
  ("M 127.0.0.1:7000@17000 myself,master - 0 0 0 connected " ++
    "[42->-DSTID]" ++ "\n").data

/-- The load of `replyMig` into a fresh node. -/
def loadMig : LoadResult :=
  clusterNodeLoadInfo (createCluster 0 0) node0 true (some replyMig)

/-- A request used in the parking scenarios. -/
def reqC7 : CRequest :=
  { rid := 5, client_id := 2, req_id := 7, need_reprocessing := false,
    node := none, slot := 0, written := 0, has_write_handler := false,
    parent_request := none, child_requests := none }

/-- A proxy state with one request, one client, and empty reprocess
structures. -/
def psC7 : ProxyState :=
  { cluster := createCluster 0 0, reqs := [reqC7],
    clients := [{ id := 2, requests_to_reprocess := [] }] }

/-- Park `reqC7` and immediately un-park it. -/
def psC7rt : ProxyState :=
  clusterRemoveRequestToReprocess (clusterAddRequestToReprocess psC7 5) 5

/-- A non-replica node with one pending (unanswered) request. -/
def nodeBusy : CNode :=
  { (createClusterNode (createCluster 0 0) none 7000).2 with
    conn := { createClusterConnection with requests_pending := [9] } }

/-- A proxy state whose only node still has a pending request. -/
def psBusy : ProxyState :=
  { cluster := { createCluster 0 0 with nodes := [nodeBusy] },
    reqs := [], clients := [] }

/-- A network that refuses every connection. -/
def envDown : NetEnv := fun _ _ => none

/-- A proxy state with one quiescent non-replica node. -/
def psQuiet : ProxyState :=
  { cluster := { createCluster 0 0 with nodes := [node0] },
    reqs := [], clients := [] }

/-- A one-record reply owning the whole keyspace (the spec's scenario S2). -/
def replyFull : List Char :=
  ("N 127.0.0.1:7000@17000 myself,master - 0 0 0 connected 0-16383" ++ "\n").data

/-- A network where every address answers with `replyFull`. -/
def envFull : NetEnv := fun _ _ => some (some replyFull)

/-- The keys of the slot map in storage order. -/
def slotKeys (c : ClusterState) : List Nat := c.slots_map.map Prod.fst

/-- Loader invariant: every slot in the node's `slots` list has a
later-or-equal slot in the same list whose key is in the slot map (a range
token maps its `stop` endpoint, a bare token the slot itself). -/
def nodeCov (c : ClusterState) (n : CNode) : Prop :=
  ∀ s ∈ n.slots, ∃ t, t ∈ n.slots ∧ s ≤ t ∧ u32 t ∈ slotKeys c

/-- Loader invariant over the finished nodes of a cluster. -/
def clusterCov (c : ClusterState) : Prop := ∀ n ∈ c.nodes, nodeCov c n

/-- Loader invariant: every slot-map value is the identity of a finished
node or of the node currently being loaded. -/
def mapVals (c : ClusterState) (nid : Nat) : Prop :=
  ∀ e ∈ c.slots_map, (∃ n, n ∈ c.nodes ∧ n.id = e.2) ∨ e.2 = nid

/-- Every slot-map value is the identity of a node in the node list. -/
def mapOwned (c : ClusterState) : Prop :=
  ∀ e ∈ c.slots_map, ∃ n, n ∈ c.nodes ∧ n.id = e.2

/-- The single node loaded from `replyFull`: the whole range `0-16383` in
its `slots` list, master flags, connected. -/
def fullNodeC1 : CNode :=
  { id := 0, ip := [], port := 0, name := some ['N'], flags := 0,
    is_replica := false, replicate := none, replicas_count := 0,
    slots := intRange 0 16383, migrating := [], importing := [],
    duplicated_from := none,
    conn := { createClusterConnection with connected := true } }

/-- The topology fetched from `envFull`. -/
def fetchFull : ClusterState × Bool :=
  fetchClusterConfiguration envFull (createCluster 0 0) none 0

/-! # Theorems -/

/-! ## Generic facts about the helpers -/

/-- The C mask `& 0x3FFF` is reduction modulo `2 ^ 14`. -/
theorem and_mask14_eq_mod (n : Nat) : n &&& 0x3FFF = n % 16384 := by
  apply Nat.eq_of_testBit_eq
  intro i
  rw [Nat.testBit_and]
  show _ = Nat.testBit (n % 2 ^ 14) i
  rw [Nat.testBit_mod_two_pow]
  by_cases h : i < 14
  · have ht : Nat.testBit 0x3FFF i = true := by interval_cases i <;> decide
    simp [ht, h]
  · have ht : Nat.testBit 0x3FFF i = false := by
      have h16 : (0x3FFF : Nat) < 2 ^ 14 := by norm_num
      exact Nat.testBit_lt_two_pow
        (lt_of_lt_of_le h16 (Nat.pow_le_pow_right (by norm_num) (by omega)))
    simp [ht, h]

theorem firstIdx_le_length (b : Nat) (l : List Nat) : firstIdx b l ≤ l.length := by
  induction l with
  | nil => simp [firstIdx]
  | cons x xs ih =>
    simp only [firstIdx, List.length_cons]
    split
    · omega
    · omega

theorem firstIdx_of_not_mem {b : Nat} {l : List Nat} (h : b ∉ l) :
    firstIdx b l = l.length := by
  induction l with
  | nil => simp [firstIdx]
  | cons x xs ih =>
    simp only [List.mem_cons, not_or] at h
    simp only [firstIdx, List.length_cons]
    rw [if_neg (by intro hx; exact h.1 hx.symm), ih h.2]
    omega

theorem not_mem_take_firstIdx (b : Nat) (l : List Nat) :
    b ∉ l.take (firstIdx b l) := by
  induction l with
  | nil => simp
  | cons x xs ih =>
    simp only [firstIdx]
    split
    · simp
    · rename_i hx
      rw [Nat.add_comm 1 (firstIdx b xs), List.take_succ_cons]
      simp only [List.mem_cons, not_or]
      exact ⟨fun hb => hx hb.symm, ih⟩

/-! ## C2 — hash-tag law of `clusterKeyHashSlot` -/

/-- If a byte string contains no close brace, its hash is the hash of the
whole string: the tag scan falls through to the base case. -/
theorem clusterKeyHashSlot_of_no_close (t : List Nat) (h : 125 ∉ t) :
    clusterKeyHashSlot t = crc16 t % 16384 := by
  unfold clusterKeyHashSlot
  by_cases hs : firstIdx 123 t = t.length
  · simp [hs]
  · rw [if_neg hs]
    have hlt : firstIdx 123 t < t.length :=
      lt_of_le_of_ne (firstIdx_le_length 123 t) hs
    have hnd : 125 ∉ t.drop (firstIdx 123 t + 1) :=
      fun hm => h (List.mem_of_mem_drop hm)
    have hfd : firstIdx 125 (t.drop (firstIdx 123 t + 1)) =
        (t.drop (firstIdx 123 t + 1)).length := firstIdx_of_not_mem hnd
    rw [hfd, List.length_drop]
    rw [if_pos]
    left
    omega

/-- C2: the hash-tag law of `clusterKeyHashSlot` (`cluster.c:58-77`).
Writing `s` for the index of the first `'\x7b'` and `e` for the index of the
first `'\x7d'` after it: (1) when the tag exists and is non-empty, the slot
of the key is the slot of the tag `t` (the bytes strictly between `s` and
`e`); (2) when there is no such tag, the slot is `crc16` of the whole key
masked to 14 bits; (3) concretely, the slot of `"foo"` is `12182`, the slot
of `"\x7bfoo\x7dbar"` is `12182`, and the slot of `"\x7b\x7dbar"` is
`crc16` of the whole key masked to 14 bits. -/
theorem C2_hash_tag_law :
    (∀ key : List Nat,
      firstIdx 123 key < key.length →
      firstIdx 125 (key.drop (firstIdx 123 key + 1)) <
        (key.drop (firstIdx 123 key + 1)).length →
      firstIdx 125 (key.drop (firstIdx 123 key + 1)) ≠ 0 →
      clusterKeyHashSlot key =
        clusterKeyHashSlot ((key.drop (firstIdx 123 key + 1)).take
          (firstIdx 125 (key.drop (firstIdx 123 key + 1))))) ∧
    (∀ key : List Nat,
      (firstIdx 123 key = key.length ∨
       firstIdx 125 (key.drop (firstIdx 123 key + 1)) =
         (key.drop (firstIdx 123 key + 1)).length ∨
       firstIdx 125 (key.drop (firstIdx 123 key + 1)) = 0) →
      clusterKeyHashSlot key = crc16 key &&& 0x3FFF) ∧
    clusterKeyHashSlot [102, 111, 111] = 12182 ∧
    clusterKeyHashSlot [123, 102, 111, 111, 125, 98, 97, 114] = 12182 ∧
    clusterKeyHashSlot [123, 125, 98, 97, 114] =
      crc16 [123, 125, 98, 97, 114] &&& 0x3FFF := by
  refine ⟨?_, ?_, by decide, by decide, ?_⟩
  · intro key hs he hne
    have hslen : firstIdx 123 key ≠ key.length := Nat.ne_of_lt hs
    have hdl : (key.drop (firstIdx 123 key + 1)).length =
        key.length - (firstIdx 123 key + 1) := List.length_drop _ _
    have hguard : ¬(firstIdx 123 key + 1 + firstIdx 125 (key.drop (firstIdx 123 key + 1)) =
        key.length ∨
        firstIdx 123 key + 1 + firstIdx 125 (key.drop (firstIdx 123 key + 1)) =
        firstIdx 123 key + 1) := by
      push_neg
      constructor
      · omega
      · omega
    have hL : clusterKeyHashSlot key =
        crc16 ((key.drop (firstIdx 123 key + 1)).take
          (firstIdx 125 (key.drop (firstIdx 123 key + 1)))) % 16384 := by
      unfold clusterKeyHashSlot
      rw [if_neg hslen, if_neg hguard, Nat.add_sub_cancel_left]
    rw [hL]
    rw [clusterKeyHashSlot_of_no_close _ (not_mem_take_firstIdx 125 _)]
  · intro key hcase
    rw [and_mask14_eq_mod]
    unfold clusterKeyHashSlot
    rcases hcase with h1 | h2 | h3
    · simp [h1]
    · by_cases hs : firstIdx 123 key = key.length
      · simp [hs]
      · rw [if_neg hs, if_pos]
        rw [List.length_drop] at h2
        have := firstIdx_le_length 123 key
        left
        omega
    · by_cases hs : firstIdx 123 key = key.length
      · simp [hs]
      · rw [if_neg hs, if_pos]
        right
        omega
  · rw [and_mask14_eq_mod]
    decide

/-- Witness for C2: the tag branch applied at the concrete key
`"\x7bfoo\x7dbar"`, whose tag is `"foo"`. -/
theorem C2_hash_tag_law_witness :
    firstIdx 123 [123, 102, 111, 111, 125, 98, 97, 114] <
      ([123, 102, 111, 111, 125, 98, 97, 114] : List Nat).length ∧
    clusterKeyHashSlot [123, 102, 111, 111, 125, 98, 97, 114] =
      clusterKeyHashSlot [102, 111, 111] := by
  constructor
  · decide
  · have h := C2_hash_tag_law.1 [123, 102, 111, 111, 125, 98, 97, 114]
      (by decide) (by decide) (by decide)
    simpa using h

/-! ## Facts about the slot map -/

theorem seekGe_none_of_all_lt (m : List (Nat × Nat)) (k : Nat)
    (h : ∀ e ∈ m, e.1 < k) : seekGe m k = none := by
  induction m with
  | nil => rfl
  | cons a rest ih =>
    obtain ⟨ka, va⟩ := a
    have hk : ka < k := h (ka, va) (List.mem_cons_self _ _)
    simp only [seekGe]
    rw [if_neg (by omega)]
    exact ih (fun e he => h e (List.mem_cons_of_mem _ he))

theorem keys_raxInsertN (m : List (Nat × Nat)) (k v k' : Nat) :
    k' ∈ (raxInsertN m k v).map Prod.fst ↔ k' ∈ m.map Prod.fst ∨ k' = k := by
  induction m with
  | nil => simp [raxInsertN]
  | cons a rest ih =>
    obtain ⟨ka, va⟩ := a
    simp only [raxInsertN]
    by_cases h1 : k < ka
    · rw [if_pos h1]
      simp
      tauto
    · rw [if_neg h1]
      by_cases h2 : k = ka
      · rw [if_pos h2]
        subst h2
        simp
        tauto
      · rw [if_neg h2]
        simp only [List.map_cons, List.mem_cons, ih]
        tauto

/-! ## C10 — a seek past every key does not wrap around -/

/-- C10: when every slot-map entry has a key strictly below the queried
slot (in particular when the slot map is empty), `searchNodeBySlot` returns
no node — the `">="` seek does not wrap to the first entry — and
`getNodeByKey` on a key hashing to such a slot returns no node and leaves
its slot out-parameter unwritten. -/
theorem C10_seek_past_end :
    (∀ (c : ClusterState) (slot : Int),
      (∀ e ∈ c.slots_map, e.1 < u32 slot) →
      searchNodeBySlot c slot = none) ∧
    (∀ (c : ClusterState) (key : List Nat) (getslot : Int),
      (∀ e ∈ c.slots_map, e.1 < u32 (clusterKeyHashSlot key)) →
      getNodeByKey c key getslot = (none, getslot)) := by
  constructor
  · intro c slot h
    unfold searchNodeBySlot
    rw [seekGe_none_of_all_lt _ _ h]
    rfl
  · intro c key getslot h
    have hs : searchNodeBySlot c (clusterKeyHashSlot key) = none := by
      unfold searchNodeBySlot
      rw [seekGe_none_of_all_lt _ _ h]
      rfl
    simp only [getNodeByKey, hs]

/-- Witness for C10: the empty topology answers neither slot `5` nor the
key `"foo"`, and the out-parameter keeps its input value `42`. -/
theorem C10_seek_past_end_witness :
    searchNodeBySlot (createCluster 0 0) 5 = none ∧
    getNodeByKey (createCluster 0 0) [102, 111, 111] 42 = (none, 42) :=
  ⟨C10_seek_past_end.1 (createCluster 0 0) 5 (by intro e he; simp [createCluster] at he),
   C10_seek_past_end.2 (createCluster 0 0) [102, 111, 111] 42
     (by intro e he; simp [createCluster] at he)⟩


/-! ## C3 — a range token maps only its endpoints -/

theorem strchrSplit_append (c : Char) (pre post : List Char) (h : c ∉ pre) :
    strchrSplit c (pre ++ c :: post) = some (pre, post) := by
  induction pre with
  | nil => simp [strchrSplit]
  | cons x xs ih =>
    simp only [List.mem_cons, not_or] at h
    simp only [List.cons_append, strchrSplit]
    rw [if_neg (fun hh => h.1 hh.symm)]
    simp only [List.append_eq]
    rw [ih h.2]

/-- Counterexample to C3 at the concrete range token `0-2`: the fetch
succeeds and the node's `slots` list receives every slot `0, 1, 2` of the
range, but the slot map receives only the two endpoints — the interior
slot `1` is not inserted. -/
theorem C3_counterexample :
    fetchRange02.2 = true ∧
    fetchRange02.1.nodes.map (fun n => n.slots) = [[0, 1, 2]] ∧
    fetchRange02.1.slots_map.map Prod.fst = [0, 2] ∧
    (1 : Nat) ∉ fetchRange02.1.slots_map.map Prod.fst := by
  refine ⟨by decide, by decide, by decide, by decide⟩

/-- C3 as amended: parsing a contiguous slot-spec token `a-b` in a `myself`
record (a token that does not open with `'['`, split by its first dash into
`pre` and `post` with `a = atoi(pre)`, `b = atoi(post)`) appends every slot
of `[a, b]` to the node's `slots` list, but inserts into the SlotMap only
the two endpoints `a` and `b` — no interior slot of the range. -/
theorem C3_range_token_endpoints_only :
    ∀ (c : ClusterState) (node : CNode) (pre post : List Char),
      (pre ++ '-' :: post).head? ≠ some '[' →
      '-' ∉ pre →
      (processSlotToken (c, node) (pre ++ '-' :: post)).2.slots =
        node.slots ++ intRange (catoi pre) (catoi post) ∧
      (∀ k : Nat,
        k ∈ (processSlotToken (c, node) (pre ++ '-' :: post)).1.slots_map.map Prod.fst ↔
        (k ∈ c.slots_map.map Prod.fst ∨ k = u32 (catoi pre) ∨ k = u32 (catoi post))) := by
  intro c node pre post hhead hdash
  have hsplit : strchrSplit '-' (pre ++ '-' :: post) = some (pre, post) :=
    strchrSplit_append '-' pre post hdash
  have hred : processSlotToken (c, node) (pre ++ '-' :: post) =
      (mapSlot (mapSlot c (catoi pre) node.id) (catoi post) node.id,
       { node with slots := node.slots ++ intRange (catoi pre) (catoi post) }) := by
    rcases hpre : pre ++ '-' :: post with _ | ⟨x, rest⟩
    · exact absurd hpre (by cases pre <;> simp)
    · have hx : x ≠ '[' := by
        intro h
        apply hhead
        rw [hpre, h]
        rfl
      rw [hpre] at hsplit
      simp only [processSlotToken]
      split
      · rename_i heq
        exact absurd (List.head_eq_of_cons_eq heq.symm) hx.symm
      · rw [hsplit]
  rw [hred]
  refine ⟨rfl, ?_⟩
  intro k
  simp only [mapSlot, keys_raxInsertN]
  tauto

/-- Witness for the amended C3 at the token `0-2`: slots `0, 1, 2` all enter
the `slots` list, while key `1` enters the slot map if and only if it is one
of the endpoints `0` and `2` — so it does not. -/
theorem C3_range_token_endpoints_only_witness :
    (processSlotToken (createCluster 0 0, node0) ['0', '-', '2']).2.slots =
      node0.slots ++ intRange (catoi ['0']) (catoi ['2']) ∧
    ((1 : Nat) ∈
        (processSlotToken (createCluster 0 0, node0) ['0', '-', '2']).1.slots_map.map
          Prod.fst ↔
      ((1 : Nat) ∈ (createCluster 0 0).slots_map.map Prod.fst ∨
        (1 : Nat) = u32 (catoi ['0']) ∨ (1 : Nat) = u32 (catoi ['2']))) := by
  have h := C3_range_token_endpoints_only (createCluster 0 0) node0 ['0'] ['2']
    (by decide) (by decide)
  exact ⟨h.1, h.2 1⟩


/-! ## C8 — migrating/importing entries come in pairs -/

theorem myselfNodeUpdate_fields (node : CNode) (parts : List (List Char)) :
    (myselfNodeUpdate node parts).migrating = node.migrating ∧
    (myselfNodeUpdate node parts).importing = node.importing ∧
    (myselfNodeUpdate node parts).slots = node.slots ∧
    (myselfNodeUpdate node parts).id = node.id ∧
    (myselfNodeUpdate node parts).conn = node.conn := by
  unfold myselfNodeUpdate
  split <;> simp

theorem processSlotToken_parity (st : ClusterState × CNode) (tok : List Char) :
    (processSlotToken st tok).2.migrating.length % 2 = st.2.migrating.length % 2 ∧
    (processSlotToken st tok).2.importing.length % 2 = st.2.importing.length % 2 := by
  obtain ⟨c, node⟩ := st
  simp only [processSlotToken]
  split
  · split
    · constructor <;> simp
    · split
      · constructor <;> simp
      · exact ⟨rfl, rfl⟩
  · split
    · exact ⟨rfl, rfl⟩
    · split
      · exact ⟨rfl, rfl⟩
      · exact ⟨rfl, rfl⟩

theorem foldTokens_parity (toks : List (List Char)) (st : ClusterState × CNode) :
    (toks.foldl processSlotToken st).2.migrating.length % 2 =
      st.2.migrating.length % 2 ∧
    (toks.foldl processSlotToken st).2.importing.length % 2 =
      st.2.importing.length % 2 := by
  induction toks generalizing st with
  | nil => exact ⟨rfl, rfl⟩
  | cons t ts ih =>
    simp only [List.foldl_cons]
    have h1 := processSlotToken_parity st t
    have h2 := ih (processSlotToken st t)
    exact ⟨h2.1.trans h1.1, h2.2.trans h1.2⟩

theorem processLine_parity (c : ClusterState) (node : CNode) (wf : Bool)
    (friends : List CNode) (line : List Char) :
    match processLine c node wf friends line with
    | none => True
    | some (_, node', friends') =>
        node'.migrating.length % 2 = node.migrating.length % 2 ∧
        node'.importing.length % 2 = node.importing.length % 2 ∧
        ∀ f ∈ friends', f ∈ friends ∨ (f.migrating = [] ∧ f.importing = []) := by
  simp only [processLine]
  split
  · trivial
  · rename_i r c' node' friends' heq
    split at heq
    · exact absurd heq (by simp)
    · split at heq
      · split at heq
        · simp only [Option.some.injEq, Prod.mk.injEq] at heq
          obtain ⟨h1, h2, h3⟩ := heq
          subst h2
          subst h3
          have hp := foldTokens_parity ((splitOnChar ' ' line).drop 8)
            (c, myselfNodeUpdate node (splitOnChar ' ' line))
          have hm := myselfNodeUpdate_fields node (splitOnChar ' ' line)
          refine ⟨?_, ?_, fun f hf => Or.inl hf⟩
          · rw [hp.1]
            simp [hm.1]
          · rw [hp.2]
            simp [hm.2.1]
        · simp only [Option.some.injEq, Prod.mk.injEq] at heq
          obtain ⟨h1, h2, h3⟩ := heq
          subst h2
          subst h3
          have hm := myselfNodeUpdate_fields node (splitOnChar ' ' line)
          refine ⟨by simp [hm.1], by simp [hm.2.1], fun f hf => Or.inl hf⟩
      · split at heq
        · simp only [Option.some.injEq, Prod.mk.injEq] at heq
          obtain ⟨h1, h2, h3⟩ := heq
          subst h2
          subst h3
          refine ⟨rfl, rfl, fun f hf => ?_⟩
          rcases List.mem_append.1 hf with hin | hnew
          · exact Or.inl hin
          · have : f = (createClusterNode c
                (parseAddr ((splitOnChar ' ' line).getD 1 [])).1
                (parseAddr ((splitOnChar ' ' line).getD 1 [])).2).2 := by
              simpa using hnew
            subst this
            exact Or.inr ⟨rfl, rfl⟩
        · simp only [Option.some.injEq, Prod.mk.injEq] at heq
          obtain ⟨h1, h2, h3⟩ := heq
          subst h2
          subst h3
          exact ⟨rfl, rfl, fun f hf => Or.inl hf⟩

theorem processLines_parity (ls : List (List Char)) :
    ∀ (c : ClusterState) (node : CNode) (wf : Bool) (friends : List CNode),
    (processLines c node wf friends ls).node.migrating.length % 2 =
      node.migrating.length % 2 ∧
    (processLines c node wf friends ls).node.importing.length % 2 =
      node.importing.length % 2 ∧
    ∀ f ∈ (processLines c node wf friends ls).friends,
      f ∈ friends ∨ (f.migrating = [] ∧ f.importing = []) := by
  induction ls with
  | nil => exact fun c node wf friends => ⟨rfl, rfl, fun f hf => Or.inl hf⟩
  | cons l rest ih =>
    intro c node wf friends
    have hL := processLine_parity c node wf friends l
    simp only [processLines]
    rcases hcase : processLine c node wf friends l with _ | ⟨c', node', friends'⟩
    · exact ⟨rfl, rfl, fun f hf => Or.inl hf⟩
    · rw [hcase] at hL
      obtain ⟨hm, hi, hf⟩ := hL
      obtain ⟨hm2, hi2, hf2⟩ := ih c' node' wf friends'
      refine ⟨hm2.trans hm, hi2.trans hi, fun f hmem => ?_⟩
      rcases hf2 f hmem with hin | hfresh
      · exact hf f hin
      · exact Or.inr hfresh

/-- C8: (general part) any topology load preserves the evenness of the
`migrating` and `importing` arrays of the loaded node — each migrating or
importing token appends exactly one (slot, counterpart) pair — and every
friend skeleton it discovers has empty (hence even) arrays; (concrete part)
the `myself` record carrying the token `[42->-DSTID]` yields
`migrating == ["42", "DSTID"]` with `migrating_count == 2`, an empty
`importing`, and slot 42 is not appended to the node's `slots` list. -/
theorem C8_pairs_invariant :
    (∀ (c : ClusterState) (node : CNode) (wf : Bool) (reply? : Option (List Char)),
      node.migrating.length % 2 = 0 →
      node.importing.length % 2 = 0 →
      ((clusterNodeLoadInfo c node wf reply?).node.migrating.length % 2 = 0 ∧
       (clusterNodeLoadInfo c node wf reply?).node.importing.length % 2 = 0 ∧
       ∀ f ∈ (clusterNodeLoadInfo c node wf reply?).friends,
         f.migrating.length % 2 = 0 ∧ f.importing.length % 2 = 0)) ∧
    loadMig.ok = true ∧
    loadMig.node.migrating = [['4', '2'], ['D', 'S', 'T', 'I', 'D']] ∧
    loadMig.node.migrating.length = 2 ∧
    loadMig.node.importing = [] ∧
    loadMig.node.slots = [] ∧
    (42 : Int) ∉ loadMig.node.slots := by
  refine ⟨?_, by decide, by decide, by decide, by decide, by decide, by decide⟩
  intro c node wf reply? hm hi
  rcases reply? with _ | reply
  · exact ⟨hm, hi, by intro f hf; simp [clusterNodeLoadInfo] at hf⟩
  · simp only [clusterNodeLoadInfo]
    obtain ⟨h1, h2, h3⟩ := processLines_parity (linesOf reply) c
      { node with conn := { node.conn with connected := true } } wf []
    refine ⟨by rw [h1]; exact hm, by rw [h2]; exact hi, fun f hf => ?_⟩
    rcases h3 f hf with hin | ⟨he1, he2⟩
    · exact absurd hin (List.not_mem_nil f)
    · exact ⟨by rw [he1]; rfl, by rw [he2]; rfl⟩

/-- Witness for C8's general part at the concrete migrating-token load. -/
theorem C8_pairs_invariant_witness :
    node0.migrating.length % 2 = 0 ∧
    loadMig.node.migrating.length % 2 = 0 ∧
    loadMig.node.importing.length % 2 = 0 := by
  have h := C8_pairs_invariant.1 (createCluster 0 0) node0 true (some replyMig)
    (by decide) (by decide)
  exact ⟨by decide, h.1, h.2.1⟩

/-! ## C7 — the parking round trip -/

theorem find?_map_rid (l : List CRequest) (rid : Nat) (f : CRequest → CRequest)
    (hf : ∀ r, (f r).rid = r.rid) :
    (l.map (fun r => if r.rid = rid then f r else r)).find? (fun r => r.rid = rid) =
      ((l.find? (fun r => r.rid = rid)).map f) := by
  induction l with
  | nil => rfl
  | cons r rest ih =>
    simp only [List.map_cons]
    by_cases hr : r.rid = rid
    · rw [if_pos hr]
      rw [List.find?_cons_of_pos _ (by simp [hf, hr]),
        List.find?_cons_of_pos _ (by simp [hr])]
      rfl
    · rw [if_neg hr]
      rw [List.find?_cons_of_neg _ (by simp [hr]),
        List.find?_cons_of_neg _ (by simp [hr])]
      exact ih

theorem getReq_setReq (ps : ProxyState) (rid : Nat) (f : CRequest → CRequest)
    (hf : ∀ r, (f r).rid = r.rid) :
    getReq (setReq ps rid f) rid = (getReq ps rid).map f := by
  unfold getReq setReq
  exact find?_map_rid ps.reqs rid f hf

theorem sRemove_not_mem (m : List (List Char × Nat)) (k : List Char)
    (h : k ∉ m.map Prod.fst) : sRemove m k = m := by
  induction m with
  | nil => rfl
  | cons e rest ih =>
    obtain ⟨ke, ve⟩ := e
    simp only [List.map_cons, List.mem_cons, not_or] at h
    simp only [sRemove]
    rw [if_neg (fun hh => h.1 hh.symm), ih h.2]

/-- Counterexample to C7 at a concrete state: with the topology map and the
client list both empty, parking request 5 and immediately un-parking it
leaves the topology map empty, but the client's `requests_to_reprocess`
list still holds the request — `clusterRemoveRequestToReprocess` never
touches the client list. -/
theorem C7_counterexample :
    psC7.cluster.requests_to_reprocess = [] ∧
    psC7.clients.map (fun cl => cl.requests_to_reprocess) = [[]] ∧
    psC7rt.cluster.requests_to_reprocess = [] ∧
    psC7rt.clients.map (fun cl => cl.requests_to_reprocess) = [[5]] := by
  refine ⟨rfl, rfl, by decide, by decide⟩

/-- C7 as amended: `add_request_to_reprocess` followed by
`remove_request_to_reprocess` leaves the topology's reprocess map empty
(assuming it was empty before) and clears the request's `need_reprocessing`
flag, but the client's reprocess list retains the appended request — its
removal is a caller responsibility; and on a request whose composite key
was never inserted, the removal leaves the reprocess map and every client
list unchanged (it only clears the flag). -/
theorem C7_round_trip_amended :
    (∀ (ps : ProxyState) (rid : Nat) (req : CRequest),
      getReq ps rid = some req →
      ps.cluster.requests_to_reprocess = [] →
      (clusterRemoveRequestToReprocess
          (clusterAddRequestToReprocess ps rid) rid).cluster.requests_to_reprocess
        = [] ∧
      (clusterRemoveRequestToReprocess
          (clusterAddRequestToReprocess ps rid) rid).clients =
        ps.clients.map (fun cl =>
          if cl.id = req.client_id then
            { cl with requests_to_reprocess := cl.requests_to_reprocess ++ [rid] }
          else cl) ∧
      (∀ r ∈ (clusterRemoveRequestToReprocess
          (clusterAddRequestToReprocess ps rid) rid).reqs,
        r.rid = rid → r.need_reprocessing = false)) ∧
    (∀ (ps : ProxyState) (rid : Nat) (req : CRequest),
      getReq ps rid = some req →
      reqKey req ∉ ps.cluster.requests_to_reprocess.map Prod.fst →
      (clusterRemoveRequestToReprocess ps rid).cluster.requests_to_reprocess =
        ps.cluster.requests_to_reprocess ∧
      (clusterRemoveRequestToReprocess ps rid).clients = ps.clients) := by
  constructor
  · intro ps rid req hget hemp
    have hA : getReq (clusterAddRequestToReprocess ps rid) rid =
        some (parkMutation req) := by
      unfold clusterAddRequestToReprocess
      rw [hget]
      show getReq (setReq ps rid parkMutation) rid = _
      rw [getReq_setReq ps rid parkMutation (fun r => rfl), hget]
      rfl
    have hmap : (clusterAddRequestToReprocess ps rid).cluster.requests_to_reprocess =
        [(reqKey req, rid)] := by
      unfold clusterAddRequestToReprocess
      rw [hget]
      show sInsert ps.cluster.requests_to_reprocess (reqKey req) rid = _
      rw [hemp]
      rfl
    refine ⟨?_, ?_, ?_⟩
    · unfold clusterRemoveRequestToReprocess
      rw [hA]
      show sRemove (clusterAddRequestToReprocess ps rid).cluster.requests_to_reprocess
        (reqKey (parkMutation req)) = []
      rw [hmap]
      simp only [sRemove]
      rw [if_pos (show reqKey req = reqKey (parkMutation req) from rfl)]
    · unfold clusterRemoveRequestToReprocess
      rw [hA]
      show (clusterAddRequestToReprocess ps rid).clients = _
      unfold clusterAddRequestToReprocess
      rw [hget]
      rfl
    · intro r hr hrid
      unfold clusterRemoveRequestToReprocess at hr
      rw [hA] at hr
      simp only [setReq, List.mem_map] at hr
      obtain ⟨x, hx, hxr⟩ := hr
      by_cases hxid : x.rid = rid
      · rw [if_pos hxid] at hxr
        rw [← hxr]
        rfl
      · rw [if_neg hxid] at hxr
        rw [← hxr] at hrid
        exact absurd hrid hxid
  · intro ps rid req hget hnot
    unfold clusterRemoveRequestToReprocess
    rw [hget]
    constructor
    · show sRemove ps.cluster.requests_to_reprocess (reqKey req) = _
      exact sRemove_not_mem _ _ hnot
    · rfl

/-- Witness for the amended C7 at the concrete one-request state. -/
theorem C7_round_trip_amended_witness :
    psC7rt.cluster.requests_to_reprocess = [] ∧
    psC7rt.clients = [{ id := 2, requests_to_reprocess := [5] }] ∧
    (clusterRemoveRequestToReprocess psC7 5).cluster.requests_to_reprocess = [] := by
  have h1 := C7_round_trip_amended.1 psC7 5 reqC7 (by decide) rfl
  have h2 := C7_round_trip_amended.2 psC7 5 reqC7 (by decide) (by decide)
  refine ⟨h1.1, ?_, h2.1⟩
  have hcl := h1.2.1
  rw [show psC7rt.clients =
    (clusterRemoveRequestToReprocess (clusterAddRequestToReprocess psC7 5) 5).clients
    from rfl, hcl]
  decide

/-! ## C4 — pending work means `WAIT` and no reset -/

theorem find?_map_comm {α : Type} (l : List α) (g : α → α) (p : α → Bool)
    (h : ∀ r, p (g r) = p r) :
    (l.map g).find? p = (l.find? p).map g := by
  induction l with
  | nil => rfl
  | cons r rest ih =>
    simp only [List.map_cons]
    by_cases hr : p r = true
    · rw [List.find?_cons_of_pos _ (by rw [h]; exact hr),
        List.find?_cons_of_pos _ hr]
      rfl
    · rw [List.find?_cons_of_neg _ (by rw [h]; exact hr),
        List.find?_cons_of_neg _ hr]
      exact ih

theorem getReq_setReq_any (ps : ProxyState) (rid : Nat) (f : CRequest → CRequest)
    (hf : ∀ r, (f r).rid = r.rid) (q : Nat) :
    getReq (setReq ps rid f) q =
      (getReq ps q).map (fun r => if r.rid = rid then f r else r) := by
  unfold getReq setReq
  exact find?_map_comm ps.reqs _ _ (fun r => by by_cases hr : r.rid = rid <;> simp [hr, hf])

/-- Parking one request never changes the `has_write_handler` observation of
any request. -/
theorem hww_addReprocess (ps : ProxyState) (rid q : Nat) :
    (getReq (clusterAddRequestToReprocess ps rid) q).map
        (fun r => r.has_write_handler) =
      (getReq ps q).map (fun r => r.has_write_handler) := by
  rcases hg : getReq ps rid with _ | req
  · unfold clusterAddRequestToReprocess
    rw [hg]
  · have h1 : getReq (clusterAddRequestToReprocess ps rid) q =
        getReq (setReq ps rid parkMutation) q := by
      unfold clusterAddRequestToReprocess
      rw [hg]
      rfl
    rw [h1, getReq_setReq_any ps rid parkMutation (fun r => rfl) q]
    rcases getReq ps q with _ | r
    · rfl
    · by_cases hr : r.rid = rid <;> simp [hr, parkMutation]

theorem parkToSend_hww (l : List Nat) :
    ∀ (ps : ProxyState) (keep : List Nat) (wait : Nat) (q : Nat),
    (getReq (parkToSend ps keep wait l).1 q).map (fun r => r.has_write_handler) =
      (getReq ps q).map (fun r => r.has_write_handler) := by
  induction l with
  | nil => intro ps keep wait q; rfl
  | cons rid rest ih =>
    intro ps keep wait q
    simp only [parkToSend]
    split
    · exact ih ps (keep ++ [rid]) wait q
    · split
      · exact ih ps (keep ++ [rid]) (wait + 1) q
      · rw [ih (clusterAddRequestToReprocess ps rid) keep wait q]
        exact hww_addReprocess ps rid q

theorem parkToSend_wait_ge (l : List Nat) :
    ∀ (ps : ProxyState) (keep : List Nat) (wait : Nat),
    wait ≤ (parkToSend ps keep wait l).2.2 := by
  induction l with
  | nil => intro ps keep wait; exact Nat.le_refl wait
  | cons rid rest ih =>
    intro ps keep wait
    simp only [parkToSend]
    split
    · exact ih ps (keep ++ [rid]) wait
    · split
      · exact Nat.le_trans (Nat.le_succ wait) (ih ps (keep ++ [rid]) (wait + 1))
      · exact ih (clusterAddRequestToReprocess ps rid) keep wait

theorem parkToSend_wait_pos (l : List Nat) :
    ∀ (ps : ProxyState) (keep : List Nat) (wait : Nat),
    (∃ rid ∈ l, (getReq ps rid).map (fun r => r.has_write_handler) = some true) →
    0 < (parkToSend ps keep wait l).2.2 := by
  induction l with
  | nil => intro ps keep wait h; simp at h
  | cons rid rest ih =>
    intro ps keep wait h
    simp only [parkToSend]
    split
    · rename_i hg
      apply ih ps (keep ++ [rid]) wait
      obtain ⟨w, hw1, hw2⟩ := h
      rcases List.mem_cons.1 hw1 with rfl | hmem
      · rw [hg] at hw2
        exact absurd hw2 (by simp)
      · exact ⟨w, hmem, hw2⟩
    · rename_i req hg
      split
      · exact Nat.lt_of_lt_of_le (Nat.succ_pos wait)
          (parkToSend_wait_ge rest ps (keep ++ [rid]) (wait + 1))
      · rename_i hw
        apply ih (clusterAddRequestToReprocess ps rid) keep wait
        obtain ⟨w, hw1, hw2⟩ := h
        rcases List.mem_cons.1 hw1 with rfl | hmem
        · rw [hg] at hw2
          simp at hw2
          exact absurd hw2 hw
        · refine ⟨w, hmem, ?_⟩
          rw [hww_addReprocess ps rid w]
          exact hw2

theorem countAndPark_wait_ge (ns : List CNode) :
    ∀ (ps : ProxyState) (acc : List CNode) (wait : Nat)
      (ip : Option (List Char)) (port : Int),
    wait ≤ (countAndPark ps acc wait ip port ns).wait := by
  induction ns with
  | nil => intro ps acc wait ip port; exact Nat.le_refl wait
  | cons node rest ih =>
    intro ps acc wait ip port
    simp only [countAndPark]
    by_cases hrep : node.is_replica = true
    · rw [if_pos hrep]
      exact ih ps (acc ++ [node]) wait _ _
    · rw [if_neg hrep]
      refine Nat.le_trans ?_ (ih _ _ _ _ _)
      refine Nat.le_trans ?_ (parkToSend_wait_ge node.conn.requests_to_send ps []
        (wait + node.conn.requests_pending.length))
      omega

theorem countAndPark_wait_pos (ns : List CNode) :
    ∀ (ps : ProxyState) (acc : List CNode) (wait : Nat)
      (ip : Option (List Char)) (port : Int),
    (∃ node ∈ ns, node.is_replica = false ∧
      (node.conn.requests_pending ≠ [] ∨
       ∃ rid ∈ node.conn.requests_to_send,
         (getReq ps rid).map (fun r => r.has_write_handler) = some true)) →
    0 < (countAndPark ps acc wait ip port ns).wait := by
  induction ns with
  | nil => intro ps acc wait ip port h; simp at h
  | cons node rest ih =>
    intro ps acc wait ip port h
    obtain ⟨w, hmem, hrep, hbusy⟩ := h
    rcases List.mem_cons.1 hmem with rfl | htail
    · simp only [countAndPark]
      rw [if_neg (by rw [hrep]; simp)]
      rcases hbusy with hpend | hwrite
      · refine Nat.lt_of_lt_of_le ?_ (countAndPark_wait_ge rest _ _ _ _ _)
        refine Nat.lt_of_lt_of_le ?_ (parkToSend_wait_ge w.conn.requests_to_send ps []
          (wait + w.conn.requests_pending.length))
        have : w.conn.requests_pending.length ≠ 0 := by
          intro hz
          exact hpend (List.eq_nil_of_length_eq_zero hz)
        omega
      · refine Nat.lt_of_lt_of_le ?_ (countAndPark_wait_ge rest _ _ _ _ _)
        exact parkToSend_wait_pos w.conn.requests_to_send ps []
          (wait + w.conn.requests_pending.length) hwrite
    · simp only [countAndPark]
      by_cases hr : node.is_replica = true
      · rw [if_pos hr]
        exact ih ps (acc ++ [node]) wait _ _ ⟨w, htail, hrep, hbusy⟩
      · rw [if_neg hr]
        apply ih
        refine ⟨w, htail, hrep, ?_⟩
        rcases hbusy with hpend | hwrite
        · exact Or.inl hpend
        · refine Or.inr ?_
          obtain ⟨rid, hrmem, hrw⟩ := hwrite
          refine ⟨rid, hrmem, ?_⟩
          rw [parkToSend_hww node.conn.requests_to_send ps [] _ rid]
          exact hrw

/-- Parking requests never touches the slot map or the cluster node list of
the proxy state it threads. -/
theorem parkToSend_frame (l : List Nat) :
    ∀ (ps : ProxyState) (keep : List Nat) (wait : Nat),
    (parkToSend ps keep wait l).1.cluster.slots_map = ps.cluster.slots_map ∧
    (parkToSend ps keep wait l).1.cluster.nodes = ps.cluster.nodes := by
  induction l with
  | nil => intro ps keep wait; exact ⟨rfl, rfl⟩
  | cons rid rest ih =>
    intro ps keep wait
    simp only [parkToSend]
    split
    · exact ih ps (keep ++ [rid]) wait
    · rename_i req hg
      split
      · exact ih ps (keep ++ [rid]) (wait + 1)
      · have hadd : (clusterAddRequestToReprocess ps rid).cluster.slots_map =
            ps.cluster.slots_map ∧
            (clusterAddRequestToReprocess ps rid).cluster.nodes =
            ps.cluster.nodes := by
          unfold clusterAddRequestToReprocess
          rw [hg]
          exact ⟨rfl, rfl⟩
        obtain ⟨h1, h2⟩ := ih (clusterAddRequestToReprocess ps rid) keep wait
        exact ⟨h1.trans hadd.1, h2.trans hadd.2⟩

theorem countAndPark_frame (ns : List CNode) :
    ∀ (ps : ProxyState) (acc : List CNode) (wait : Nat)
      (ip : Option (List Char)) (port : Int),
    (countAndPark ps acc wait ip port ns).ps.cluster.slots_map =
      ps.cluster.slots_map ∧
    (countAndPark ps acc wait ip port ns).nodes.map (fun n => n.id) =
      acc.map (fun n => n.id) ++ ns.map (fun n => n.id) := by
  induction ns with
  | nil => intro ps acc wait ip port; simp [countAndPark]
  | cons node rest ih =>
    intro ps acc wait ip port
    simp only [countAndPark]
    by_cases hr : node.is_replica = true
    · rw [if_pos hr]
      obtain ⟨h1, h2⟩ := ih ps (acc ++ [node]) wait _ _
      refine ⟨h1, ?_⟩
      rw [h2]
      simp
    · rw [if_neg hr]
      obtain ⟨h1, h2⟩ := ih _ _ _ _ _
      obtain ⟨hp1, _⟩ := parkToSend_frame node.conn.requests_to_send ps []
        (wait + node.conn.requests_pending.length)
      refine ⟨h1.trans hp1, ?_⟩
      rw [h2]
      simp

/-- C4: on a non-broken topology, if some non-replica node still has a
pending request or a request mid-write in its send queue, `updateCluster`
returns `WAIT` and performs no reset: the slot map is untouched and the
node list still holds exactly the same nodes (no node is freed, no entry
removed). -/
theorem C4_quiescence_wait :
    ∀ (env : NetEnv) (ps : ProxyState),
      ps.cluster.broken = false →
      (∃ node ∈ ps.cluster.nodes, node.is_replica = false ∧
        (node.conn.requests_pending ≠ [] ∨
         ∃ rid ∈ node.conn.requests_to_send,
           (getReq ps rid).map (fun r => r.has_write_handler) = some true)) →
      (updateCluster env ps).2.1 = ReconfigStatus.WAIT ∧
      (updateCluster env ps).1.cluster.slots_map = ps.cluster.slots_map ∧
      (updateCluster env ps).1.cluster.nodes.map (fun n => n.id) =
        ps.cluster.nodes.map (fun n => n.id) := by
  intro env ps hbroken hex
  have hw := countAndPark_wait_pos ps.cluster.nodes ps [] 0 none 0 hex
  have hf := countAndPark_frame ps.cluster.nodes ps [] 0 none 0
  simp only [updateCluster, hbroken, Bool.false_eq_true, if_false]
  rw [if_pos (by omega)]
  refine ⟨rfl, hf.1, ?_⟩
  show (countAndPark ps [] 0 none 0 ps.cluster.nodes).nodes.map (fun n => n.id) = _
  rw [hf.2]
  simp

/-- Witness for C4: one non-replica node with a pending request makes the
update wait without clearing anything. -/
theorem C4_quiescence_wait_witness :
    (updateCluster envDown psBusy).2.1 = ReconfigStatus.WAIT ∧
    (updateCluster envDown psBusy).1.cluster.slots_map = psBusy.cluster.slots_map ∧
    (updateCluster envDown psBusy).1.cluster.nodes.map (fun n => n.id) =
      psBusy.cluster.nodes.map (fun n => n.id) :=
  C4_quiescence_wait envDown psBusy rfl
    ⟨nodeBusy, by decide, by decide, Or.inl (by decide)⟩

/-! ## C6 — a failed re-discovery breaks the topology for good -/

theorem countAndPark_quiet (ns : List CNode) :
    ∀ (ps : ProxyState) (acc : List CNode) (wait : Nat)
      (ip : Option (List Char)) (port : Int),
    (∀ node ∈ ns, node.is_replica = false →
      node.conn.requests_pending = [] ∧ node.conn.requests_to_send = []) →
    (countAndPark ps acc wait ip port ns).ps = ps ∧
    (countAndPark ps acc wait ip port ns).wait = wait := by
  induction ns with
  | nil => intro ps acc wait ip port hq; exact ⟨rfl, rfl⟩
  | cons node rest ih =>
    intro ps acc wait ip port hq
    have hrest : ∀ n ∈ rest, n.is_replica = false →
        n.conn.requests_pending = [] ∧ n.conn.requests_to_send = [] :=
      fun n hn => hq n (List.mem_cons_of_mem _ hn)
    simp only [countAndPark]
    by_cases hrep : node.is_replica = true
    · rw [if_pos hrep]
      exact ih ps (acc ++ [node]) wait _ _ hrest
    · rw [if_neg hrep]
      obtain ⟨hpend, hts⟩ := hq node (List.mem_cons_self _ _)
        (Bool.not_eq_true _ ▸ hrep)
      simp only [hpend, hts, parkToSend, List.length_nil, Nat.add_zero]
      exact ih ps _ wait _ _ hrest

/-- C6: (1) if the topology is not broken, every non-replica node is
quiescent (so the reconfiguration is actually attempted) and the
re-discovery step fails, `updateCluster` returns `ERR` and marks the
topology broken; (2) on a broken topology every `updateCluster` call
returns `ERR` immediately, leaving the state — and hence all later calls —
completely unchanged. -/
theorem C6_broken_sticky :
    (∀ (env : NetEnv) (ps : ProxyState),
      ps.cluster.broken = false →
      (∀ node ∈ ps.cluster.nodes, node.is_replica = false →
        node.conn.requests_pending = [] ∧ node.conn.requests_to_send = []) →
      (∀ (c : ClusterState) (ip : Option (List Char)) (port : Int),
        (fetchClusterConfiguration env c ip port).2 = false) →
      (updateCluster env ps).2.1 = ReconfigStatus.ERR ∧
      (updateCluster env ps).1.cluster.broken = true) ∧
    (∀ (env : NetEnv) (ps : ProxyState),
      ps.cluster.broken = true →
      updateCluster env ps = (ps, ReconfigStatus.ERR, [])) := by
  constructor
  · intro env ps hbroken hquiet hfetch
    have hq := countAndPark_quiet ps.cluster.nodes ps [] 0 none 0 hquiet
    simp only [updateCluster, hbroken, Bool.false_eq_true, if_false]
    rw [if_neg (by rw [hq.2]; exact fun hcon => hcon rfl)]
    rw [hfetch]
    simp
  · intro env ps hbroken
    simp only [updateCluster, hbroken, if_true]

/-- Witness for C6: on a quiescent single-node topology with the network
down, the first update returns `ERR` and breaks the topology; the next
update short-circuits to `ERR` leaving the state untouched. -/
theorem C6_broken_sticky_witness :
    (updateCluster envDown psQuiet).2.1 = ReconfigStatus.ERR ∧
    (updateCluster envDown psQuiet).1.cluster.broken = true ∧
    updateCluster envDown (updateCluster envDown psQuiet).1 =
      ((updateCluster envDown psQuiet).1, ReconfigStatus.ERR, []) := by
  have h1 := C6_broken_sticky.1 envDown psQuiet rfl (by decide)
    (fun c ip port => rfl)
  have h2 := C6_broken_sticky.2 envDown (updateCluster envDown psQuiet).1 h1.2
  exact ⟨h1.1, h1.2, h2⟩

/-! ## Frame lemmas for the discovery pipeline

Loading topology only ever touches the slot map, the node fields of the
loaded node, and the fresh-id counter: the reprocess map, the broken flag
and the request queues survive, and every node created during discovery
carries a fresh empty connection. -/

theorem processSlotToken_frame (st : ClusterState × CNode) (tok : List Char) :
    (processSlotToken st tok).1.nodes = st.1.nodes ∧
    (processSlotToken st tok).1.requests_to_reprocess =
      st.1.requests_to_reprocess ∧
    (processSlotToken st tok).1.broken = st.1.broken ∧
    (processSlotToken st tok).2.conn = st.2.conn := by
  obtain ⟨c, node⟩ := st
  simp only [processSlotToken]
  split
  · split
    · exact ⟨rfl, rfl, rfl, rfl⟩
    · split
      · exact ⟨rfl, rfl, rfl, rfl⟩
      · exact ⟨rfl, rfl, rfl, rfl⟩
  · split
    · exact ⟨rfl, rfl, rfl, rfl⟩
    · split
      · exact ⟨rfl, rfl, rfl, rfl⟩
      · exact ⟨rfl, rfl, rfl, rfl⟩

theorem foldTokens_frame (toks : List (List Char)) (st : ClusterState × CNode) :
    (toks.foldl processSlotToken st).1.nodes = st.1.nodes ∧
    (toks.foldl processSlotToken st).1.requests_to_reprocess =
      st.1.requests_to_reprocess ∧
    (toks.foldl processSlotToken st).1.broken = st.1.broken ∧
    (toks.foldl processSlotToken st).2.conn = st.2.conn := by
  induction toks generalizing st with
  | nil => exact ⟨rfl, rfl, rfl, rfl⟩
  | cons t ts ih =>
    simp only [List.foldl_cons]
    obtain ⟨a1, a2, a3, a4⟩ := processSlotToken_frame st t
    obtain ⟨b1, b2, b3, b4⟩ := ih (processSlotToken st t)
    exact ⟨b1.trans a1, b2.trans a2, b3.trans a3, b4.trans a4⟩

theorem processLine_frame (c : ClusterState) (node : CNode) (wf : Bool)
    (friends : List CNode) (line : List Char) :
    match processLine c node wf friends line with
    | none => True
    | some (c', node', friends') =>
        c'.nodes = c.nodes ∧
        c'.requests_to_reprocess = c.requests_to_reprocess ∧
        c'.broken = c.broken ∧
        node'.conn = node.conn ∧
        ∀ f ∈ friends', f ∈ friends ∨ f.conn = createClusterConnection := by
  simp only [processLine]
  split
  · trivial
  · rename_i r c' node' friends' heq
    split at heq
    · exact absurd heq (by simp)
    · split at heq
      · split at heq
        · simp only [Option.some.injEq, Prod.mk.injEq] at heq
          obtain ⟨h1, h2, h3⟩ := heq
          subst h1
          subst h2
          subst h3
          obtain ⟨a1, a2, a3, a4⟩ := foldTokens_frame ((splitOnChar ' ' line).drop 8)
            (c, myselfNodeUpdate node (splitOnChar ' ' line))
          have hconn := (myselfNodeUpdate_fields node (splitOnChar ' ' line)).2.2.2.2
          exact ⟨a1, a2, a3, a4.trans hconn, fun f hf => Or.inl hf⟩
        · simp only [Option.some.injEq, Prod.mk.injEq] at heq
          obtain ⟨h1, h2, h3⟩ := heq
          subst h1
          subst h2
          subst h3
          have hconn := (myselfNodeUpdate_fields node (splitOnChar ' ' line)).2.2.2.2
          exact ⟨rfl, rfl, rfl, hconn, fun f hf => Or.inl hf⟩
      · split at heq
        · simp only [Option.some.injEq, Prod.mk.injEq] at heq
          obtain ⟨h1, h2, h3⟩ := heq
          subst h1
          subst h2
          subst h3
          refine ⟨rfl, rfl, rfl, rfl, fun f hf => ?_⟩
          rcases List.mem_append.1 hf with hin | hnew
          · exact Or.inl hin
          · exact Or.inr (by simpa using congrArg CNode.conn (by simpa using hnew))
        · simp only [Option.some.injEq, Prod.mk.injEq] at heq
          obtain ⟨h1, h2, h3⟩ := heq
          subst h1
          subst h2
          subst h3
          exact ⟨rfl, rfl, rfl, rfl, fun f hf => Or.inl hf⟩

theorem processLines_frame (ls : List (List Char)) :
    ∀ (c : ClusterState) (node : CNode) (wf : Bool) (friends : List CNode),
    (processLines c node wf friends ls).c.nodes = c.nodes ∧
    (processLines c node wf friends ls).c.requests_to_reprocess =
      c.requests_to_reprocess ∧
    (processLines c node wf friends ls).c.broken = c.broken ∧
    (processLines c node wf friends ls).node.conn = node.conn ∧
    ∀ f ∈ (processLines c node wf friends ls).friends,
      f ∈ friends ∨ f.conn = createClusterConnection := by
  induction ls with
  | nil => exact fun c node wf friends => ⟨rfl, rfl, rfl, rfl, fun f hf => Or.inl hf⟩
  | cons l rest ih =>
    intro c node wf friends
    have hL := processLine_frame c node wf friends l
    simp only [processLines]
    rcases hcase : processLine c node wf friends l with _ | ⟨c', node', friends'⟩
    · exact ⟨rfl, rfl, rfl, rfl, fun f hf => Or.inl hf⟩
    · rw [hcase] at hL
      obtain ⟨a1, a2, a3, a4, a5⟩ := hL
      obtain ⟨b1, b2, b3, b4, b5⟩ := ih c' node' wf friends'
      refine ⟨b1.trans a1, b2.trans a2, b3.trans a3, b4.trans a4, fun f hf => ?_⟩
      rcases b5 f hf with hin | hfresh
      · exact a5 f hin
      · exact Or.inr hfresh

theorem clusterNodeLoadInfo_frame (c : ClusterState) (node : CNode) (wf : Bool)
    (reply? : Option (List Char)) :
    (clusterNodeLoadInfo c node wf reply?).c.nodes = c.nodes ∧
    (clusterNodeLoadInfo c node wf reply?).c.requests_to_reprocess =
      c.requests_to_reprocess ∧
    (clusterNodeLoadInfo c node wf reply?).c.broken = c.broken ∧
    (clusterNodeLoadInfo c node wf reply?).node.conn.requests_pending =
      node.conn.requests_pending ∧
    (clusterNodeLoadInfo c node wf reply?).node.conn.requests_to_send =
      node.conn.requests_to_send ∧
    ∀ f ∈ (clusterNodeLoadInfo c node wf reply?).friends,
      f.conn = createClusterConnection := by
  rcases reply? with _ | reply
  · exact ⟨rfl, rfl, rfl, rfl, rfl, by intro f hf; simp [clusterNodeLoadInfo] at hf⟩
  · simp only [clusterNodeLoadInfo]
    obtain ⟨a1, a2, a3, a4, a5⟩ := processLines_frame (linesOf reply) c
      { node with conn := { node.conn with connected := true } } wf []
    refine ⟨a1, a2, a3, by rw [a4], by rw [a4], fun f hf => ?_⟩
    rcases a5 f hf with hin | hfresh
    · exact absurd hin (List.not_mem_nil f)
    · exact hfresh

theorem loadFriends_frame (fs : List CNode) :
    ∀ (env : NetEnv) (c : ClusterState),
    (loadFriends env c fs).1.requests_to_reprocess = c.requests_to_reprocess ∧
    (loadFriends env c fs).1.broken = c.broken := by
  induction fs with
  | nil => exact fun env c => ⟨rfl, rfl⟩
  | cons f fs ih =>
    intro env c
    simp only [loadFriends]
    obtain ⟨a1, a2, a3, _⟩ := clusterNodeLoadInfo_frame c f false
      ((env (some f.ip) f.port).bind id)
    split
    · obtain ⟨b1, b2⟩ := ih env _
      exact ⟨b1.trans a2, b2.trans a3⟩
    · exact ⟨a2, a3⟩

theorem loadFriends_quiet (fs : List CNode) :
    ∀ (env : NetEnv) (c : ClusterState),
    (∀ n ∈ c.nodes, n.conn.requests_pending = [] ∧ n.conn.requests_to_send = []) →
    (∀ f ∈ fs, f.conn.requests_pending = [] ∧ f.conn.requests_to_send = []) →
    ∀ n ∈ (loadFriends env c fs).1.nodes,
      n.conn.requests_pending = [] ∧ n.conn.requests_to_send = [] := by
  induction fs with
  | nil => exact fun env c hc hf => hc
  | cons f fs ih =>
    intro env c hc hf
    simp only [loadFriends]
    obtain ⟨a1, _, _, a4, a5, _⟩ := clusterNodeLoadInfo_frame c f false
      ((env (some f.ip) f.port).bind id)
    have hfq := hf f (List.mem_cons_self _ _)
    split
    · apply ih env _ ?_ (fun g hg => hf g (List.mem_cons_of_mem _ hg))
      intro n hn
      simp only [a1] at hn ⊢
      rcases List.mem_append.1 hn with hin | hone
      · exact hc n (a1 ▸ hin)
      · have : n = (clusterNodeLoadInfo c f false
            ((env (some f.ip) f.port).bind id)).node := by simpa using hone
        subst this
        exact ⟨a4.trans hfq.1, a5.trans hfq.2⟩
    · intro n hn
      rw [a1] at hn
      exact hc n hn

theorem fetchClusterConfiguration_frame (env : NetEnv) (c : ClusterState)
    (ip : Option (List Char)) (port : Int) :
    (fetchClusterConfiguration env c ip port).1.requests_to_reprocess =
      c.requests_to_reprocess ∧
    (fetchClusterConfiguration env c ip port).1.broken = c.broken := by
  simp only [fetchClusterConfiguration]
  split
  · exact ⟨rfl, rfl⟩
  · obtain ⟨a1, a2, a3, _⟩ := clusterNodeLoadInfo_frame
      (createClusterNode c ip port).1 (createClusterNode c ip port).2 true _
    split
    · obtain ⟨b1, b2⟩ := loadFriends_frame _ env _
      exact ⟨b1.trans a2, b2.trans a3⟩
    · exact ⟨a2, a3⟩

theorem fetchClusterConfiguration_quiet (env : NetEnv) (c : ClusterState)
    (ip : Option (List Char)) (port : Int)
    (hc : ∀ n ∈ c.nodes,
      n.conn.requests_pending = [] ∧ n.conn.requests_to_send = []) :
    ∀ n ∈ (fetchClusterConfiguration env c ip port).1.nodes,
      n.conn.requests_pending = [] ∧ n.conn.requests_to_send = [] := by
  simp only [fetchClusterConfiguration]
  split
  · exact hc
  · rename_i reply? heq
    obtain ⟨a1, _, _, a4, a5, a6⟩ := clusterNodeLoadInfo_frame
      (createClusterNode c ip port).1 (createClusterNode c ip port).2 true reply?
    have hn2 : ∀ n ∈ ({ (clusterNodeLoadInfo (createClusterNode c ip port).1
        (createClusterNode c ip port).2 true reply?).c with
        nodes := (clusterNodeLoadInfo (createClusterNode c ip port).1
          (createClusterNode c ip port).2 true reply?).c.nodes ++
          [(clusterNodeLoadInfo (createClusterNode c ip port).1
            (createClusterNode c ip port).2 true reply?).node] } :
          ClusterState).nodes,
        n.conn.requests_pending = [] ∧ n.conn.requests_to_send = [] := by
      intro n hn
      simp only [a1] at hn
      rcases List.mem_append.1 hn with hin | hone
      · exact hc n (by simpa using hin)
      · have : n = (clusterNodeLoadInfo (createClusterNode c ip port).1
            (createClusterNode c ip port).2 true reply?).node := by simpa using hone
        subst this
        exact ⟨a4, a5⟩
    split
    · apply loadFriends_quiet _ env _ hn2
      intro f hf
      rw [a6 f hf]
      exact ⟨rfl, rfl⟩
    · exact hn2

/-! ## Frame lemmas for the replay loop -/

theorem foldl_setReq_cluster (l : List Nat) (g : CRequest → CRequest) :
    ∀ ps : ProxyState,
    (l.foldl (fun a r => setReq a r g) ps).cluster = ps.cluster := by
  induction l with
  | nil => exact fun ps => rfl
  | cons x xs ih => exact fun ps => (ih (setReq ps x g)).trans rfl

theorem nullifyRelatives_cluster (ps : ProxyState) (req : CRequest) :
    (nullifyRelatives ps req).cluster = ps.cluster := by
  simp only [nullifyRelatives]
  split
  · exact foldl_setReq_cluster _ _ ps
  · split
    · split
      · split
        · exact (foldl_setReq_cluster _ _ _).trans rfl
        · rfl
      · rfl
    · rfl

theorem replayLoop_cluster_frame (fuel : Nat) :
    ∀ (ps : ProxyState) (acc : List CRequest),
    (replayLoop ps acc fuel).1.cluster.broken = ps.cluster.broken ∧
    (replayLoop ps acc fuel).1.cluster.nodes = ps.cluster.nodes ∧
    (replayLoop ps acc fuel).1.cluster.slots_map = ps.cluster.slots_map := by
  induction fuel with
  | zero => exact fun ps acc => ⟨rfl, rfl, rfl⟩
  | succ n ih =>
    intro ps acc
    simp only [replayLoop]
    split
    · exact ⟨rfl, rfl, rfl⟩
    · split
      · obtain ⟨b1, b2, b3⟩ := ih _ acc
        exact ⟨b1, b2, b3⟩
      · split
        · obtain ⟨b1, b2, b3⟩ := ih _ acc
          refine ⟨b1.trans ?_, b2.trans ?_, b3.trans ?_⟩ <;>
            (rw [nullifyRelatives_cluster]; rfl)
        · obtain ⟨b1, b2, b3⟩ := ih _ _
          refine ⟨b1.trans ?_, b2.trans ?_, b3.trans ?_⟩ <;>
            (rw [nullifyRelatives_cluster]; rfl)

theorem replayLoop_empty (fuel : Nat) (ps : ProxyState) (acc : List CRequest)
    (h : ps.cluster.requests_to_reprocess = []) :
    replayLoop ps acc fuel = (ps, acc) := by
  cases fuel with
  | zero => rfl
  | succ n =>
    simp only [replayLoop]
    rw [h]

theorem getReq_cluster_update (ps : ProxyState) (c : ClusterState) (rid : Nat) :
    getReq { ps with cluster := c } rid = getReq ps rid := rfl

theorem listRemoveFirst_append (rid : Nat) (L : List Nat) (h : rid ∉ L) :
    listRemoveFirst rid (L ++ [rid]) = L := by
  induction L with
  | nil => simp [listRemoveFirst]
  | cons x xs ih =>
    simp only [List.mem_cons, not_or] at h
    simp only [List.cons_append, listRemoveFirst]
    rw [if_neg (fun hh => h.1 hh.symm)]
    simp only [List.append_eq]
    rw [ih h.2]

theorem map_id_of_eq {α : Type} (l : List α) (f : α → α)
    (h : ∀ a ∈ l, f a = a) : l.map f = l := by
  induction l with
  | nil => rfl
  | cons x xs ih =>
    simp only [List.map_cons]
    rw [h x (List.mem_cons_self _ _), ih (fun a ha => h a (List.mem_cons_of_mem _ ha))]


theorem setReq_cluster (ps : ProxyState) (rid : Nat) (f : CRequest → CRequest) :
    (setReq ps rid f).cluster = ps.cluster := rfl

theorem setReq_clients (ps : ProxyState) (rid : Nat) (f : CRequest → CRequest) :
    (setReq ps rid f).clients = ps.clients := rfl

theorem setClient_cluster (ps : ProxyState) (cid : Int) (g : CClient → CClient) :
    (setClient ps cid g).cluster = ps.cluster := rfl

theorem getReq_setClient (ps : ProxyState) (cid : Int) (g : CClient → CClient)
    (q : Nat) : getReq (setClient ps cid g) q = getReq ps q := rfl

theorem nullifyRelatives_id (ps : ProxyState) (req : CRequest)
    (h1 : req.child_requests = none) (h2 : req.parent_request = none) :
    nullifyRelatives ps req = ps := by
  simp only [nullifyRelatives, h1, h2]

/-- Any `updateCluster` on a topology with an empty reprocess map and only
quiescent non-replica nodes hands nothing to `processRequest`. -/
theorem update_hands_nothing (env : NetEnv) (ps : ProxyState)
    (hmap : ps.cluster.requests_to_reprocess = [])
    (hquiet : ∀ node ∈ ps.cluster.nodes, node.is_replica = false →
      node.conn.requests_pending = [] ∧ node.conn.requests_to_send = []) :
    (updateCluster env ps).2.2 = [] := by
  by_cases hb : ps.cluster.broken = true
  · simp only [updateCluster, hb, if_true]
  · have hq := countAndPark_quiet ps.cluster.nodes ps [] 0 none 0 hquiet
    simp only [updateCluster]
    rw [if_neg hb, if_neg (fun hne => hne hq.2)]
    split
    · have hm2 : ({ (fetchClusterConfiguration env
          (resetCluster { (countAndPark ps [] 0 none 0 ps.cluster.nodes).ps.cluster with
            nodes := (countAndPark ps [] 0 none 0 ps.cluster.nodes).nodes,
            is_updating := true })
          (countAndPark ps [] 0 none 0 ps.cluster.nodes).ip
          (countAndPark ps [] 0 none 0 ps.cluster.nodes).port).1 with
            is_updating := false, update_required := false } :
          ClusterState).requests_to_reprocess = [] := by
        show (fetchClusterConfiguration env _ _ _).1.requests_to_reprocess = []
        rw [(fetchClusterConfiguration_frame env _ _ _).1]
        show (countAndPark ps [] 0 none 0 ps.cluster.nodes).ps.cluster.requests_to_reprocess = []
        rw [hq.1]
        exact hmap
      rw [replayLoop_empty _ _ _ hm2]
    · rfl

/-- The successful path of `updateCluster`: with a non-broken, quiescent
topology and a network on which discovery succeeds, the update runs the
replay loop on a pre-replay state that keeps the reprocess map, the request
store and the clients intact, is not broken, and whose nodes all carry
empty queues. -/
theorem updateCluster_success_shape (env : NetEnv) (ps : ProxyState)
    (hbroken : ps.cluster.broken = false)
    (hquiet : ∀ node ∈ ps.cluster.nodes, node.is_replica = false →
      node.conn.requests_pending = [] ∧ node.conn.requests_to_send = [])
    (hfok : ∀ (c : ClusterState) (ip : Option (List Char)) (port : Int),
      (fetchClusterConfiguration env c ip port).2 = true) :
    ∃ psc : ProxyState,
      updateCluster env ps =
        ((replayLoop psc [] psc.cluster.requests_to_reprocess.length).1,
         ReconfigStatus.ENDED,
         (replayLoop psc [] psc.cluster.requests_to_reprocess.length).2) ∧
      psc.cluster.requests_to_reprocess = ps.cluster.requests_to_reprocess ∧
      psc.reqs = ps.reqs ∧
      psc.clients = ps.clients ∧
      psc.cluster.broken = false ∧
      (∀ n ∈ psc.cluster.nodes,
        n.conn.requests_pending = [] ∧ n.conn.requests_to_send = []) := by
  have hq := countAndPark_quiet ps.cluster.nodes ps [] 0 none 0 hquiet
  simp only [updateCluster, hbroken, Bool.false_eq_true, if_false]
  rw [if_neg (fun hne => hne hq.2), hfok]
  simp only [if_true]
  refine ⟨_, rfl, ?_, ?_, ?_, ?_, ?_⟩
  · show (fetchClusterConfiguration env _ _ _).1.requests_to_reprocess = _
    rw [(fetchClusterConfiguration_frame env _ _ _).1]
    show (countAndPark ps [] 0 none 0 ps.cluster.nodes).ps.cluster.requests_to_reprocess = _
    rw [hq.1]
  · show (countAndPark ps [] 0 none 0 ps.cluster.nodes).ps.reqs = _
    rw [hq.1]
  · show (countAndPark ps [] 0 none 0 ps.cluster.nodes).ps.clients = _
    rw [hq.1]
  · show (fetchClusterConfiguration env _ _ _).1.broken = false
    rw [(fetchClusterConfiguration_frame env _ _ _).2]
    show (countAndPark ps [] 0 none 0 ps.cluster.nodes).ps.cluster.broken = false
    rw [hq.1]
    exact hbroken
  · intro n hn
    refine fetchClusterConfiguration_quiet env _ _ _ ?_ n hn
    intro m hm
    simp [resetCluster] at hm

/-- Replaying a singleton reprocess map hands exactly its request, with the
reprocessing flag cleared, empties the map, and removes the request from
its client's reprocess list. -/
theorem replayLoop_singleton (ps : ProxyState) (k : List Char) (rid : Nat)
    (req1 : CRequest) (acc : List CRequest)
    (hmap : ps.cluster.requests_to_reprocess = [(k, rid)])
    (hg : getReq ps rid = some req1)
    (hch : req1.child_requests = none)
    (hpar : req1.parent_request = none) :
    (replayLoop ps acc 1).2 = acc ++ [clearReprocessing req1] ∧
    (replayLoop ps acc 1).1.cluster.requests_to_reprocess = [] ∧
    (replayLoop ps acc 1).1.clients =
      ps.clients.map (fun cl => if cl.id = req1.client_id then
        { cl with requests_to_reprocess := listRemoveFirst rid cl.requests_to_reprocess }
      else cl) ∧
    (replayLoop ps acc 1).1.cluster.nodes = ps.cluster.nodes ∧
    (replayLoop ps acc 1).1.cluster.broken = ps.cluster.broken := by
  have h1 : getReq (setReq ps rid clearReprocessing) rid =
      some (clearReprocessing req1) := by
    rw [getReq_setReq ps rid clearReprocessing (fun r => rfl), hg]
    rfl
  have hch2 : (clearReprocessing req1).child_requests = none := hch
  have hpar2 : (clearReprocessing req1).parent_request = none := hpar
  simp only [replayLoop, hmap, getReq_cluster_update, h1,
    nullifyRelatives_id _ _ hch2 hpar2, getReq_setClient]
  refine ⟨trivial, ?_, ?_, ?_, ?_⟩
  · simp only [setClient_cluster, setReq_cluster]
    rw [hmap]
    simp [sRemove]
  · simp only [setClient, setReq_clients, clearReprocessing]
  · simp only [setClient_cluster, setReq_cluster]
  · simp only [setClient_cluster, setReq_cluster]

/-! ## C5 — one parked request is replayed exactly once -/

/-- C5: starting from a quiescent, non-broken topology with no parked
request, parking one relative-free request and running a successful
`updateCluster` returns `ENDED`, hands exactly that request to the external
`processRequest` — with `need_reprocessing` cleared, `written = 0`,
`slot = -1` and a null node — removes it from the topology's reprocess map
and from its client's reprocess list, and an immediately following
`updateCluster` hands nothing. -/
theorem C5_replay_once :
    ∀ (env : NetEnv) (ps0 : ProxyState) (rid : Nat) (req : CRequest),
      ps0.cluster.broken = false →
      (∀ node ∈ ps0.cluster.nodes, node.is_replica = false →
        node.conn.requests_pending = [] ∧ node.conn.requests_to_send = []) →
      ps0.cluster.requests_to_reprocess = [] →
      getReq ps0 rid = some req →
      req.child_requests = none →
      req.parent_request = none →
      (∀ cl ∈ ps0.clients, rid ∉ cl.requests_to_reprocess) →
      (∀ (c : ClusterState) (ip : Option (List Char)) (port : Int),
        (fetchClusterConfiguration env c ip port).2 = true) →
      (updateCluster env (clusterAddRequestToReprocess ps0 rid)).2.1 =
        ReconfigStatus.ENDED ∧
      (updateCluster env (clusterAddRequestToReprocess ps0 rid)).2.2 =
        [{ req with need_reprocessing := false, node := none, slot := -1, written := 0 }] ∧
      (updateCluster env
        (clusterAddRequestToReprocess ps0 rid)).1.cluster.requests_to_reprocess =
        [] ∧
      (updateCluster env (clusterAddRequestToReprocess ps0 rid)).1.clients =
        ps0.clients ∧
      (updateCluster env
        (updateCluster env (clusterAddRequestToReprocess ps0 rid)).1).2.2 = [] := by
  intro env ps0 rid req hbroken hquiet hmap0 hget hch hpar hcl hfok
  have hmap1 : (clusterAddRequestToReprocess ps0 rid).cluster.requests_to_reprocess =
      [(reqKey req, rid)] := by
    unfold clusterAddRequestToReprocess
    rw [hget]
    show sInsert ps0.cluster.requests_to_reprocess (reqKey req) rid = _
    rw [hmap0]
    rfl
  have hA : getReq (clusterAddRequestToReprocess ps0 rid) rid =
      some (parkMutation req) := by
    unfold clusterAddRequestToReprocess
    rw [hget]
    show getReq (setReq ps0 rid parkMutation) rid = _
    rw [getReq_setReq ps0 rid parkMutation (fun r => rfl), hget]
    rfl
  have hbroken1 : (clusterAddRequestToReprocess ps0 rid).cluster.broken = false := by
    unfold clusterAddRequestToReprocess
    rw [hget]
    exact hbroken
  have hquiet1 : ∀ node ∈ (clusterAddRequestToReprocess ps0 rid).cluster.nodes,
      node.is_replica = false →
      node.conn.requests_pending = [] ∧ node.conn.requests_to_send = [] := by
    intro n hn
    apply hquiet
    revert hn
    unfold clusterAddRequestToReprocess
    rw [hget]
    exact fun h => h
  have hclients1 : (clusterAddRequestToReprocess ps0 rid).clients =
      ps0.clients.map (fun cl => if cl.id = req.client_id then
        { cl with requests_to_reprocess := cl.requests_to_reprocess ++ [rid] }
      else cl) := by
    unfold clusterAddRequestToReprocess
    rw [hget]
    rfl
  obtain ⟨psc, hEq, hm, hr, hc, hb, hn⟩ := updateCluster_success_shape env
    (clusterAddRequestToReprocess ps0 rid) hbroken1 hquiet1 hfok
  have hmC : psc.cluster.requests_to_reprocess = [(reqKey req, rid)] :=
    hm.trans hmap1
  have hgC : getReq psc rid = some (parkMutation req) := by
    unfold getReq
    rw [hr]
    exact hA
  have hchP : (parkMutation req).child_requests = none := hch
  have hparP : (parkMutation req).parent_request = none := hpar
  have hlen : psc.cluster.requests_to_reprocess.length = 1 := by
    rw [hmC]
    rfl
  have hsing := replayLoop_singleton psc (reqKey req) rid (parkMutation req) []
    hmC hgC hchP hparP
  rw [hlen] at hEq
  rw [hEq]
  refine ⟨rfl, ?_, hsing.2.1, ?_, ?_⟩
  · show (replayLoop psc [] 1).2 = _
    rw [hsing.1]
    rfl
  · show (replayLoop psc [] 1).1.clients = ps0.clients
    rw [hsing.2.2.1, hc, hclients1, List.map_map]
    apply map_id_of_eq
    intro cl hclmem
    simp only [Function.comp_apply]
    by_cases hid : cl.id = req.client_id
    · rw [if_pos hid]
      have hid2 : ({ cl with requests_to_reprocess :=
          cl.requests_to_reprocess ++ [rid] } : CClient).id =
          (parkMutation req).client_id := hid
      rw [if_pos hid2]
      have hrem : listRemoveFirst rid (cl.requests_to_reprocess ++ [rid]) =
          cl.requests_to_reprocess := listRemoveFirst_append rid _ (hcl cl hclmem)
      show ({ cl with requests_to_reprocess :=
        listRemoveFirst rid (cl.requests_to_reprocess ++ [rid]) } : CClient) = cl
      rw [hrem]
    · rw [if_neg hid]
      have hid2 : ¬(cl.id = (parkMutation req).client_id) := hid
      rw [if_neg hid2]
  · show (updateCluster env (replayLoop psc [] 1).1).2.2 = []
    apply update_hands_nothing
    · exact hsing.2.1
    · intro n hmem hrep
      rw [hsing.2.2.2.1] at hmem
      exact hn n hmem

/-- Witness for C5 at a one-request, empty-topology state over a network
that always serves the full-keyspace record. -/
theorem C5_replay_once_witness :
    (updateCluster envFull (clusterAddRequestToReprocess psC7 5)).2.1 =
      ReconfigStatus.ENDED ∧
    (updateCluster envFull (clusterAddRequestToReprocess psC7 5)).2.2 =
      [{ reqC7 with need_reprocessing := false, node := none, slot := -1, written := 0 }] ∧
    (updateCluster envFull
      (clusterAddRequestToReprocess psC7 5)).1.cluster.requests_to_reprocess = [] ∧
    (updateCluster envFull (clusterAddRequestToReprocess psC7 5)).1.clients =
      psC7.clients ∧
    (updateCluster envFull
      (updateCluster envFull (clusterAddRequestToReprocess psC7 5)).1).2.2 = [] := by
  have h := C5_replay_once envFull psC7 5 reqC7 rfl (by decide) rfl (by decide)
    rfl rfl (by decide) (fun c ip port => rfl)
  exact h

/-! ## C9 — duplication copies nodes and rebuilds the slot map -/

theorem sFind_sInsert_self (m : List (List Char × Nat)) (k : List Char) (v : Nat) :
    sFind (sInsert m k v) k = some v := by
  induction m with
  | nil =>
    show ((List.find? _ [(k, v)]).map _) = some v
    rw [List.find?_cons_of_pos _ (by simp)]
    rfl
  | cons e rest ih =>
    obtain ⟨ke, ve⟩ := e
    simp only [sInsert]
    split
    · show ((List.find? _ ((k, v) :: (ke, ve) :: rest)).map _) = some v
      rw [List.find?_cons_of_pos _ (by simp)]
      rfl
    · split
      · show ((List.find? _ ((k, v) :: rest)).map _) = some v
        rw [List.find?_cons_of_pos _ (by simp)]
        rfl
      · rename_i h1 h2
        show ((List.find? _ ((ke, ve) :: sInsert rest k v)).map _) = some v
        rw [List.find?_cons_of_neg _
          (by simpa using (show ¬(ke = k) from fun hh => h2 hh.symm))]
        exact ih

theorem sFind_sInsert_ne (m : List (List Char × Nat)) (k q : List Char) (v : Nat)
    (hne : q ≠ k) : sFind (sInsert m k v) q = sFind m q := by
  have hkq : ¬(k = q) := fun hh => hne hh.symm
  induction m with
  | nil =>
    show ((List.find? _ [(k, v)]).map _) = sFind [] q
    rw [List.find?_cons_of_neg _ (by simpa using hkq)]
    rfl
  | cons e rest ih =>
    obtain ⟨ke, ve⟩ := e
    simp only [sInsert]
    split
    · show ((List.find? _ ((k, v) :: (ke, ve) :: rest)).map _) = _
      rw [List.find?_cons_of_neg _ (by simpa using hkq)]
      rfl
    · split
      · rename_i h1 h2
        subst h2
        show ((List.find? _ ((k, v) :: rest)).map _) =
          ((List.find? _ ((k, ve) :: rest)).map _)
        rw [List.find?_cons_of_neg _ (by simpa using hkq),
          List.find?_cons_of_neg _ (by simpa using hkq)]
      · by_cases h3 : ke = q
        · subst h3
          show ((List.find? _ ((ke, ve) :: sInsert rest k v)).map _) =
            ((List.find? _ ((ke, ve) :: rest)).map _)
          rw [List.find?_cons_of_pos _ (by simp),
            List.find?_cons_of_pos _ (by simp)]
        · show ((List.find? _ ((ke, ve) :: sInsert rest k v)).map _) =
            ((List.find? _ ((ke, ve) :: rest)).map _)
          rw [List.find?_cons_of_neg _ (by simpa using h3),
            List.find?_cons_of_neg _ (by simpa using h3)]
          exact ih

theorem mem_raxInsertN_of_mem (m : List (Nat × Nat)) (k v k2 v2 : Nat)
    (h : (k, v) ∈ m) (hne : k ≠ k2) : (k, v) ∈ raxInsertN m k2 v2 := by
  induction m with
  | nil => simp at h
  | cons e rest ih =>
    obtain ⟨ke, ve⟩ := e
    simp only [raxInsertN]
    split
    · exact List.mem_cons_of_mem _ h
    · split
      · rename_i hlt heq
        subst heq
        rcases List.mem_cons.1 h with hh | hmem
        · injection hh with e1 e2
          exact absurd e1 hne
        · exact List.mem_cons_of_mem _ hmem
      · rcases List.mem_cons.1 h with hh | hmem
        · exact hh ▸ List.mem_cons_self _ _
        · exact List.mem_cons_of_mem _ (ih hmem)

theorem mem_raxInsertN_self (m : List (Nat × Nat)) (k v : Nat) :
    (k, v) ∈ raxInsertN m k v := by
  induction m with
  | nil => simp [raxInsertN]
  | cons e rest ih =>
    obtain ⟨ke, ve⟩ := e
    simp only [raxInsertN]
    split
    · exact List.mem_cons_self _ _
    · split
      · exact List.mem_cons_self _ _
      · exact List.mem_cons_of_mem _ ih

theorem duplicateClusterNode_c_nodes (c : ClusterState) (s : CNode) :
    (duplicateClusterNode c s).1.nodes = c.nodes := rfl

theorem dupNodes_spec (src : List CNode) :
    ∀ (dup : ClusterState) (nbn : List (List Char × Nat)) (dupN : ClusterState)
      (nbn2 : List (List Char × Nat)),
    dupNodes dup nbn src = some (dupN, nbn2) →
    ∃ copies : List CNode,
      dupN.nodes = dup.nodes ++ copies ∧
      List.Forall₂ (fun dn sn =>
        dn.ip = sn.ip ∧ dn.port = sn.port ∧ dn.name = sn.name ∧
        dn.is_replica = sn.is_replica ∧ dn.replicate = sn.replicate ∧
        dn.slots = sn.slots ∧ dn.migrating = sn.migrating ∧
        dn.importing = sn.importing ∧ dn.flags = sn.flags ∧
        dn.replicas_count = sn.replicas_count ∧
        dn.conn = createClusterConnection ∧
        dn.duplicated_from = some sn.id) copies src ∧
      dupN.thread_id = dup.thread_id ∧
      dupN.cid = dup.cid ∧
      dupN.duplicated_from = dup.duplicated_from ∧
      dupN.slots_map = dup.slots_map ∧
      (∀ nm did, sFind nbn2 nm = some did →
        sFind nbn nm = some did ∨
        ∃ n ∈ copies, n.id = did ∧ n.name = some nm) := by
  induction src with
  | nil =>
    intro dup nbn dupN nbn2 h
    simp only [dupNodes, Option.some.injEq, Prod.mk.injEq] at h
    obtain ⟨h1, h2⟩ := h
    subst h1
    subst h2
    exact ⟨[], by simp, List.Forall₂.nil, rfl, rfl, rfl, rfl,
      fun nm did hf => Or.inl hf⟩
  | cons sn rest ih =>
    intro dup nbn dupN nbn2 h
    simp only [dupNodes] at h
    split at h
    · exact absurd h (by simp)
    · rename_i nm hname
      obtain ⟨copies, hnodes, hfa, ht, hc, hd, hs, hnbn⟩ := ih _ _ _ _ h
      refine ⟨(duplicateClusterNode dup sn).2 :: copies, ?_, ?_, ht, hc, hd, hs, ?_⟩
      · rw [hnodes]
        simp [duplicateClusterNode_c_nodes]
      · refine List.Forall₂.cons ?_ hfa
        refine ⟨rfl, rfl, rfl, rfl, rfl, rfl, rfl, rfl, rfl, rfl, rfl, rfl⟩
      · intro nm2 did hf
        rcases hnbn nm2 did hf with hold | ⟨n, hn, hid, hnm⟩
        · by_cases he : nm2 = nm
          · subst he
            rw [sFind_sInsert_self] at hold
            refine Or.inr ⟨(duplicateClusterNode dup sn).2,
              List.mem_cons_self _ _, ?_, ?_⟩
            · exact Option.some.inj hold
            · exact hname
          · rw [sFind_sInsert_ne _ _ _ _ he] at hold
            exact Or.inl hold
        · exact Or.inr ⟨n, List.mem_cons_of_mem _ hn, hid, hnm⟩

theorem dupSlots_spec (l : List (Nat × Nat)) :
    ∀ (dup : ClusterState) (nbn : List (List Char × Nat)) (src : ClusterState)
      (dup2 : ClusterState),
    dupSlots dup nbn src l = some dup2 →
    (dup2.nodes = dup.nodes ∧ dup2.thread_id = dup.thread_id ∧
     dup2.cid = dup.cid ∧ dup2.duplicated_from = dup.duplicated_from) ∧
    (∀ k, k ∈ dup2.slots_map.map Prod.fst ↔
      (k ∈ dup.slots_map.map Prod.fst ∨ k ∈ l.map Prod.fst)) ∧
    (∀ k0 v0, (k0, v0) ∈ dup.slots_map → k0 ∉ l.map Prod.fst →
      (k0, v0) ∈ dup2.slots_map) ∧
    ((l.map Prod.fst).Nodup →
      ∀ e ∈ l, ∃ srcnode, src.nodes.find? (fun n => n.id = e.2) = some srcnode ∧
        ∃ nm did, srcnode.name = some nm ∧ sFind nbn nm = some did ∧
          (e.1, did) ∈ dup2.slots_map) := by
  induction l with
  | nil =>
    intro dup nbn src dup2 h
    simp only [dupSlots, Option.some.injEq] at h
    subst h
    exact ⟨⟨rfl, rfl, rfl, rfl⟩, fun k => by simp,
      fun k0 v0 hm _ => hm, fun _ e he => absurd he (List.not_mem_nil e)⟩
  | cons e rest ih =>
    intro dup nbn src dup2 h
    obtain ⟨k, sid⟩ := e
    simp only [dupSlots] at h
    split at h
    · exact absurd h (by simp)
    · rename_i srcnode hfind
      split at h
      · exact absurd h (by simp)
      · rename_i nm hnm
        split at h
        · exact absurd h (by simp)
        · rename_i did hdid
          obtain ⟨⟨f1, f2, f3, f4⟩, hkeys, hpres, hent⟩ := ih _ _ _ _ h
          refine ⟨⟨f1, f2, f3, f4⟩, ?_, ?_, ?_⟩
          · intro k2
            rw [hkeys k2]
            simp only [List.map_cons, List.mem_cons]
            constructor
            · intro hc
              rcases hc with hm | hr
              · rcases (keys_raxInsertN dup.slots_map k did k2).1 hm with hm2 | he
                · exact Or.inl hm2
                · exact Or.inr (Or.inl he)
              · exact Or.inr (Or.inr hr)
            · intro hc
              rcases hc with hm | he | hr
              · exact Or.inl ((keys_raxInsertN dup.slots_map k did k2).2 (Or.inl hm))
              · exact Or.inl ((keys_raxInsertN dup.slots_map k did k2).2 (Or.inr he))
              · exact Or.inr hr
          · intro k0 v0 hm hnot
            simp only [List.map_cons, List.mem_cons, not_or] at hnot
            exact hpres k0 v0 (mem_raxInsertN_of_mem _ _ _ _ _ hm hnot.1) hnot.2
          · intro hnodup e2 he2
            simp only [List.map_cons, List.nodup_cons] at hnodup
            rcases List.mem_cons.1 he2 with rfl | hr
            · refine ⟨srcnode, hfind, nm, did, hnm, hdid, ?_⟩
              exact hpres _ _ (mem_raxInsertN_self dup.slots_map k did) hnodup.1
            · exact hent hnodup.2 e2 hr

/-- C9: when `duplicateCluster` succeeds on a source whose slot-map keys are
distinct (a radix-tree invariant), the result carries the source's thread
identity, a back-link to the source, and a node list that copies each
source node in order — strings, slot/migrating/importing arrays and role
copied, the connection fresh and disconnected, a back-link to the copied
node; its slot map holds exactly the source's keys, each entry resolving to
a copied node bearing the same identity name as the source owner; and the
new topology is appended to the source's `duplicates` list. -/
theorem C9_duplicate :
    ∀ (source : ClusterState) (fresh_cid : Nat) (dup src2 : ClusterState),
      duplicateCluster source fresh_cid = some (dup, src2) →
      (source.slots_map.map Prod.fst).Nodup →
      dup.thread_id = source.thread_id ∧
      dup.cid = fresh_cid ∧
      dup.duplicated_from = some source.cid ∧
      dup.nodes.length = source.nodes.length ∧
      List.Forall₂ (fun dn sn =>
        dn.ip = sn.ip ∧ dn.port = sn.port ∧ dn.name = sn.name ∧
        dn.is_replica = sn.is_replica ∧ dn.replicate = sn.replicate ∧
        dn.slots = sn.slots ∧ dn.migrating = sn.migrating ∧
        dn.importing = sn.importing ∧ dn.flags = sn.flags ∧
        dn.replicas_count = sn.replicas_count ∧
        dn.conn = createClusterConnection ∧
        dn.duplicated_from = some sn.id) dup.nodes source.nodes ∧
      (∀ k, k ∈ dup.slots_map.map Prod.fst ↔
        k ∈ source.slots_map.map Prod.fst) ∧
      (∀ e ∈ source.slots_map, ∃ srcnode,
        source.nodes.find? (fun n => n.id = e.2) = some srcnode ∧
        ∃ did n, (e.1, did) ∈ dup.slots_map ∧ n ∈ dup.nodes ∧ n.id = did ∧
          n.name = srcnode.name) ∧
      src2.duplicates = source.duplicates ++ [fresh_cid] := by
  intro source fresh_cid dup src2 h hnodup
  simp only [duplicateCluster] at h
  split at h
  · exact absurd h (by simp)
  · rename_i p dupmid nbn heqN
    split at h
    · exact absurd h (by simp)
    · rename_i dupfin heqS
      simp only [Option.some.injEq, Prod.mk.injEq] at h
      obtain ⟨h1, h2⟩ := h
      subst h1
      subst h2
      rename_i hok
      obtain ⟨copies, hnodes, hfa, ht, hcid, hdf, hsm, hnbn⟩ :=
        dupNodes_spec source.nodes _ _ _ _ heqN
      obtain ⟨⟨f1, f2, f3, f4⟩, hkeys, hpres, hent⟩ :=
        dupSlots_spec source.slots_map _ _ _ _ heqS
      have hcopies : dupfin.nodes = copies := by
        rw [f1, hnodes]
        rfl
      refine ⟨f2.trans ht, f3.trans hcid, f4.trans hdf, ?_, ?_, ?_, ?_, rfl⟩
      · rw [hcopies]
        exact hfa.length_eq
      · rw [hcopies]
        exact hfa
      · intro k
        rw [hkeys k, hsm]
        simp [createCluster]
      · intro e he
        obtain ⟨srcnode, hfind, nm, did, hnm, hdid, hmem⟩ :=
          hent hnodup e he
        rcases hnbn nm did hdid with hempty | ⟨n, hnmem, hid, hname⟩
        · exact absurd hempty (by simp [sFind])
        · exact ⟨srcnode, hfind, did, n, hmem, hcopies ▸ hnmem, hid,
            hname.trans hnm.symm⟩

/-- Witness for C9 at the concrete single-node topology fetched from
`envRange02`. -/
theorem C9_duplicate_witness :
    (duplicateCluster fetchRange02.1 7).isSome = true ∧
    (duplicateCluster fetchRange02.1 7).map (fun p => p.1.thread_id) =
      some fetchRange02.1.thread_id ∧
    (duplicateCluster fetchRange02.1 7).map (fun p => p.1.nodes.length) =
      some fetchRange02.1.nodes.length ∧
    (duplicateCluster fetchRange02.1 7).map (fun p => p.2.duplicates) =
      some (fetchRange02.1.duplicates ++ [7]) := by
  rcases hdup : duplicateCluster fetchRange02.1 7 with _ | ⟨d, s2⟩
  · exact absurd hdup (by decide)
  · have h := C9_duplicate fetchRange02.1 7 d s2 hdup (by decide)
    refine ⟨rfl, ?_, ?_, ?_⟩
    · show some d.thread_id = some fetchRange02.1.thread_id
      rw [h.1]
    · show some d.nodes.length = some fetchRange02.1.nodes.length
      rw [h.2.2.2.1]
    · show some s2.duplicates = some (fetchRange02.1.duplicates ++ [7])
      rw [h.2.2.2.2.2.2.2]

/-! ## C1 — slot coverage after a successful fetch -/

theorem mem_intRangeAux (n : Nat) :
    ∀ (a s : Int), s ∈ intRangeAux n a ↔ a ≤ s ∧ s < a + n := by
  induction n with
  | zero =>
    intro a s
    simp only [intRangeAux, List.not_mem_nil, false_iff]
    omega
  | succ n ih =>
    intro a s
    simp only [intRangeAux, List.mem_cons, ih (a + 1)]
    constructor
    · rintro (rfl | ⟨h1, h2⟩) <;> (constructor <;> omega)
    · intro h
      omega

theorem mem_intRange (s a b : Int) : s ∈ intRange a b ↔ a ≤ s ∧ s ≤ b := by
  rw [intRange, mem_intRangeAux]
  omega

theorem u32_le_u32 (a b : Int) (h0 : 0 ≤ a) (hab : a ≤ b) (hb : b < 2 ^ 32) :
    u32 a ≤ u32 b := by
  simp only [u32]
  omega

theorem seekGe_isSome (m : List (Nat × Nat)) (k : Nat)
    (h : ∃ e, e ∈ m ∧ k ≤ e.1) :
    ∃ e, seekGe m k = some e ∧ e ∈ m := by
  induction m with
  | nil =>
    obtain ⟨e, he, _⟩ := h
    exact absurd he (List.not_mem_nil e)
  | cons a rest ih =>
    obtain ⟨ka, va⟩ := a
    simp only [seekGe]
    by_cases hk : k ≤ ka
    · rw [if_pos hk]
      exact ⟨(ka, va), rfl, List.mem_cons_self _ _⟩
    · rw [if_neg hk]
      obtain ⟨e, he, hke⟩ := h
      rcases List.mem_cons.1 he with rfl | hrest
      · exact absurd hke hk
      · obtain ⟨e2, hs, hm⟩ := ih ⟨e, hrest, hke⟩
        exact ⟨e2, hs, List.mem_cons_of_mem _ hm⟩

theorem mem_raxInsertN_elim (m : List (Nat × Nat)) (k v : Nat) :
    ∀ e ∈ raxInsertN m k v, e ∈ m ∨ e = (k, v) := by
  induction m with
  | nil =>
    intro e he
    simp only [raxInsertN] at he
    exact Or.inr (by simpa using he)
  | cons a rest ih =>
    obtain ⟨ka, va⟩ := a
    intro e he
    simp only [raxInsertN] at he
    by_cases h1 : k < ka
    · rw [if_pos h1] at he
      rcases List.mem_cons.1 he with rfl | h2
      · exact Or.inr rfl
      · exact Or.inl h2
    · rw [if_neg h1] at he
      by_cases h2 : k = ka
      · rw [if_pos h2] at he
        rcases List.mem_cons.1 he with rfl | h3
        · exact Or.inr rfl
        · exact Or.inl (List.mem_cons_of_mem _ h3)
      · rw [if_neg h2] at he
        rcases List.mem_cons.1 he with rfl | h3
        · exact Or.inl (List.mem_cons_self _ _)
        · rcases ih e h3 with h4 | h4
          · exact Or.inl (List.mem_cons_of_mem _ h4)
          · exact Or.inr h4

theorem slotKeys_mapSlot (c : ClusterState) (slot : Int) (nid k : Nat) :
    k ∈ slotKeys (mapSlot c slot nid) ↔ k ∈ slotKeys c ∨ k = u32 slot := by
  simp only [slotKeys, mapSlot, keys_raxInsertN]

theorem processSlotToken_shape (c : ClusterState) (node : CNode)
    (tok : List Char) :
    (∃ mg, processSlotToken (c, node) tok =
      (c, { node with migrating := mg })) ∨
    (∃ im, processSlotToken (c, node) tok =
      (c, { node with importing := im })) ∨
    processSlotToken (c, node) tok = (c, node) ∨
    (∃ a b, processSlotToken (c, node) tok =
      (mapSlot (mapSlot c a node.id) b node.id,
       { node with slots := node.slots ++ intRange a b })) ∨
    (∃ a, processSlotToken (c, node) tok =
      (mapSlot c a node.id, { node with slots := node.slots ++ [a] })) := by
  simp only [processSlotToken]
  split
  · split
    · exact Or.inl ⟨_, rfl⟩
    · split
      · exact Or.inr (Or.inl ⟨_, rfl⟩)
      · exact Or.inr (Or.inr (Or.inl rfl))
  · split
    · exact Or.inr (Or.inr (Or.inr (Or.inl ⟨_, _, rfl⟩)))
    · split
      · exact Or.inr (Or.inr (Or.inl rfl))
      · exact Or.inr (Or.inr (Or.inr (Or.inr ⟨_, rfl⟩)))

theorem slotKeys_processSlotToken (c : ClusterState) (node : CNode)
    (tok : List Char) (k : Nat) (h : k ∈ slotKeys c) :
    k ∈ slotKeys (processSlotToken (c, node) tok).1 := by
  rcases processSlotToken_shape c node tok with
    ⟨mg, he⟩ | ⟨im, he⟩ | he | ⟨a, b, he⟩ | ⟨a, he⟩ <;> rw [he]
  · exact h
  · exact h
  · exact h
  · exact (slotKeys_mapSlot _ _ _ _).2
      (Or.inl ((slotKeys_mapSlot _ _ _ _).2 (Or.inl h)))
  · exact (slotKeys_mapSlot _ _ _ _).2 (Or.inl h)

theorem nodeCov_processSlotToken (c : ClusterState) (node : CNode)
    (tok : List Char) (h : nodeCov c node) :
    nodeCov (processSlotToken (c, node) tok).1 (processSlotToken (c, node) tok).2 := by
  rcases processSlotToken_shape c node tok with
    ⟨mg, he⟩ | ⟨im, he⟩ | he | ⟨a, b, he⟩ | ⟨a, he⟩ <;> rw [he]
  · exact h
  · exact h
  · exact h
  · intro s hs
    rcases List.mem_append.1 hs with hold | hnew
    · obtain ⟨t, ht, hst, hk⟩ := h s hold
      exact ⟨t, List.mem_append_left _ ht, hst,
        (slotKeys_mapSlot _ _ _ _).2
          (Or.inl ((slotKeys_mapSlot _ _ _ _).2 (Or.inl hk)))⟩
    · have hab := (mem_intRange s a b).1 hnew
      exact ⟨b, List.mem_append_right _
          ((mem_intRange b a b).2 ⟨le_trans hab.1 hab.2, le_refl b⟩),
        hab.2, (slotKeys_mapSlot _ _ _ _).2 (Or.inr rfl)⟩
  · intro s hs
    rcases List.mem_append.1 hs with hold | hnew
    · obtain ⟨t, ht, hst, hk⟩ := h s hold
      exact ⟨t, List.mem_append_left _ ht, hst,
        (slotKeys_mapSlot _ _ _ _).2 (Or.inl hk)⟩
    · have hsa : s = a := by simpa using hnew
      subst hsa
      exact ⟨s, List.mem_append_right _ (by simp), le_refl s,
        (slotKeys_mapSlot _ _ _ _).2 (Or.inr rfl)⟩

theorem mapVals_mapSlot (c : ClusterState) (slot : Int) (nid : Nat)
    (h : mapVals c nid) : mapVals (mapSlot c slot nid) nid := by
  intro e he
  rcases mem_raxInsertN_elim c.slots_map (u32 slot) nid e he with hin | heq
  · exact h e hin
  · exact Or.inr (by rw [heq])

theorem mapVals_processSlotToken (c : ClusterState) (node : CNode)
    (tok : List Char) (h : mapVals c node.id) :
    mapVals (processSlotToken (c, node) tok).1
      (processSlotToken (c, node) tok).2.id := by
  rcases processSlotToken_shape c node tok with
    ⟨mg, he⟩ | ⟨im, he⟩ | he | ⟨a, b, he⟩ | ⟨a, he⟩ <;> rw [he]
  · exact h
  · exact h
  · exact h
  · exact mapVals_mapSlot _ b _ (mapVals_mapSlot _ a _ h)
  · exact mapVals_mapSlot _ a _ h

theorem processSlotToken_id (st : ClusterState × CNode) (tok : List Char) :
    (processSlotToken st tok).2.id = st.2.id := by
  obtain ⟨c, node⟩ := st
  rcases processSlotToken_shape c node tok with
    ⟨mg, he⟩ | ⟨im, he⟩ | he | ⟨a, b, he⟩ | ⟨a, he⟩ <;> rw [he]

theorem slotKeys_foldTokens (toks : List (List Char)) (st : ClusterState × CNode)
    (k : Nat) (h : k ∈ slotKeys st.1) :
    k ∈ slotKeys (toks.foldl processSlotToken st).1 := by
  induction toks generalizing st with
  | nil => exact h
  | cons t ts ih =>
    simp only [List.foldl_cons]
    obtain ⟨c, node⟩ := st
    exact ih _ (slotKeys_processSlotToken c node t k h)

theorem nodeCov_foldTokens (toks : List (List Char)) (st : ClusterState × CNode)
    (h : nodeCov st.1 st.2) :
    nodeCov (toks.foldl processSlotToken st).1 (toks.foldl processSlotToken st).2 := by
  induction toks generalizing st with
  | nil => exact h
  | cons t ts ih =>
    simp only [List.foldl_cons]
    obtain ⟨c, node⟩ := st
    exact ih _ (nodeCov_processSlotToken c node t h)

theorem mapVals_foldTokens (toks : List (List Char)) (st : ClusterState × CNode)
    (h : mapVals st.1 st.2.id) :
    mapVals (toks.foldl processSlotToken st).1
      (toks.foldl processSlotToken st).2.id := by
  induction toks generalizing st with
  | nil => exact h
  | cons t ts ih =>
    simp only [List.foldl_cons]
    obtain ⟨c, node⟩ := st
    exact ih _ (mapVals_processSlotToken c node t h)

theorem foldTokens_id (toks : List (List Char)) (st : ClusterState × CNode) :
    (toks.foldl processSlotToken st).2.id = st.2.id := by
  induction toks generalizing st with
  | nil => rfl
  | cons t ts ih =>
    simp only [List.foldl_cons]
    exact (ih _).trans (processSlotToken_id st t)

theorem nodeCov_congr (c : ClusterState) (n n2 : CNode) (h : n2.slots = n.slots)
    (hcov : nodeCov c n) : nodeCov c n2 := by
  intro s hs
  rw [h] at hs
  obtain ⟨t, ht, h1, h2⟩ := hcov s hs
  exact ⟨t, by rw [h]; exact ht, h1, h2⟩

theorem processLine_inv (c : ClusterState) (node : CNode) (wf : Bool)
    (friends : List CNode) (line : List Char) :
    match processLine c node wf friends line with
    | none => True
    | some (c', node', friends') =>
        (∀ k ∈ slotKeys c, k ∈ slotKeys c') ∧
        (nodeCov c node → nodeCov c' node') ∧
        (mapVals c node.id → mapVals c' node'.id) ∧
        node'.id = node.id ∧
        (∀ f ∈ friends', f ∈ friends ∨ f.slots = []) := by
  simp only [processLine]
  split
  · trivial
  · rename_i r c' node' friends' heq
    split at heq
    · exact absurd heq (by simp)
    · split at heq
      · split at heq
        · simp only [Option.some.injEq, Prod.mk.injEq] at heq
          obtain ⟨h1, h2, h3⟩ := heq
          subst h1
          subst h2
          subst h3
          have hid := (myselfNodeUpdate_fields node (splitOnChar ' ' line)).2.2.2.1
          have hsl := (myselfNodeUpdate_fields node (splitOnChar ' ' line)).2.2.1
          refine ⟨?_, ?_, ?_, ?_, fun f hf => Or.inl hf⟩
          · intro k hk
            exact slotKeys_foldTokens _ _ k hk
          · intro hcov
            exact nodeCov_foldTokens _ _ (nodeCov_congr c _ _ hsl hcov)
          · intro hm
            have hbase : mapVals c (myselfNodeUpdate node (splitOnChar ' ' line)).id := by
              rw [hid]
              exact hm
            exact mapVals_foldTokens ((splitOnChar ' ' line).drop 8)
              (c, myselfNodeUpdate node (splitOnChar ' ' line)) hbase
          · exact (foldTokens_id _ _).trans hid
        · simp only [Option.some.injEq, Prod.mk.injEq] at heq
          obtain ⟨h1, h2, h3⟩ := heq
          subst h1
          subst h2
          subst h3
          have hid := (myselfNodeUpdate_fields node (splitOnChar ' ' line)).2.2.2.1
          have hsl := (myselfNodeUpdate_fields node (splitOnChar ' ' line)).2.2.1
          refine ⟨fun k hk => hk, ?_, ?_, hid, fun f hf => Or.inl hf⟩
          · intro hcov
            exact nodeCov_congr c _ _ hsl hcov
          · intro hm
            rw [hid]
            exact hm
      · split at heq
        · simp only [Option.some.injEq, Prod.mk.injEq] at heq
          obtain ⟨h1, h2, h3⟩ := heq
          subst h1
          subst h2
          subst h3
          refine ⟨fun k hk => hk, fun hcov => hcov, fun hm => hm, rfl,
            fun f hf => ?_⟩
          rcases List.mem_append.1 hf with hin | hone
          · exact Or.inl hin
          · refine Or.inr ?_
            have hf2 : f = (createClusterNode c
                (parseAddr ((splitOnChar ' ' line).getD 1 [])).1
                (parseAddr ((splitOnChar ' ' line).getD 1 [])).2).2 := by
              simpa using hone
            rw [hf2]
            rfl
        · simp only [Option.some.injEq, Prod.mk.injEq] at heq
          obtain ⟨h1, h2, h3⟩ := heq
          subst h1
          subst h2
          subst h3
          exact ⟨fun k hk => hk, fun hcov => hcov, fun hm => hm, rfl,
            fun f hf => Or.inl hf⟩

theorem processLines_inv (ls : List (List Char)) :
    ∀ (c : ClusterState) (node : CNode) (wf : Bool) (friends : List CNode),
    (∀ k ∈ slotKeys c, k ∈ slotKeys (processLines c node wf friends ls).c) ∧
    (nodeCov c node →
      nodeCov (processLines c node wf friends ls).c
        (processLines c node wf friends ls).node) ∧
    (mapVals c node.id →
      mapVals (processLines c node wf friends ls).c
        (processLines c node wf friends ls).node.id) ∧
    (processLines c node wf friends ls).node.id = node.id ∧
    (∀ f ∈ (processLines c node wf friends ls).friends,
      f ∈ friends ∨ f.slots = []) := by
  induction ls with
  | nil =>
    exact fun c node wf friends =>
      ⟨fun k hk => hk, fun h => h, fun h => h, rfl, fun f hf => Or.inl hf⟩
  | cons l rest ih =>
    intro c node wf friends
    have hL := processLine_inv c node wf friends l
    simp only [processLines]
    rcases hcase : processLine c node wf friends l with _ | ⟨c', node', friends'⟩
    · exact ⟨fun k hk => hk, fun h => h, fun h => h, rfl, fun f hf => Or.inl hf⟩
    · rw [hcase] at hL
      obtain ⟨a1, a2, a3, a4, a5⟩ := hL
      obtain ⟨b1, b2, b3, b4, b5⟩ := ih c' node' wf friends'
      refine ⟨fun k hk => b1 k (a1 k hk), fun h => b2 (a2 h), ?_, b4.trans a4,
        fun f hf => ?_⟩
      · intro hm
        exact b3 (a3 hm)
      · rcases b5 f hf with hin | hempty
        · exact a5 f hin
        · exact Or.inr hempty

theorem clusterNodeLoadInfo_inv (c : ClusterState) (node : CNode) (wf : Bool)
    (reply? : Option (List Char)) :
    (∀ k ∈ slotKeys c, k ∈ slotKeys (clusterNodeLoadInfo c node wf reply?).c) ∧
    (nodeCov c node →
      nodeCov (clusterNodeLoadInfo c node wf reply?).c
        (clusterNodeLoadInfo c node wf reply?).node) ∧
    (mapVals c node.id →
      mapVals (clusterNodeLoadInfo c node wf reply?).c
        (clusterNodeLoadInfo c node wf reply?).node.id) ∧
    (clusterNodeLoadInfo c node wf reply?).node.id = node.id ∧
    (∀ f ∈ (clusterNodeLoadInfo c node wf reply?).friends, f.slots = []) := by
  rcases reply? with _ | reply
  · exact ⟨fun k hk => hk, fun h => h, fun h => h, rfl,
      by intro f hf; simp [clusterNodeLoadInfo] at hf⟩
  · simp only [clusterNodeLoadInfo]
    obtain ⟨a1, a2, a3, a4, a5⟩ := processLines_inv (linesOf reply) c
      { node with conn := { node.conn with connected := true } } wf []
    refine ⟨a1, fun h => a2 h, fun h => a3 h, a4, fun f hf => ?_⟩
    rcases a5 f hf with hin | hempty
    · exact absurd hin (List.not_mem_nil f)
    · exact hempty

theorem clusterCov_mono (c c2 : ClusterState) (hn : c2.nodes = c.nodes)
    (hk : ∀ k ∈ slotKeys c, k ∈ slotKeys c2) (h : clusterCov c) :
    clusterCov c2 := by
  intro n hmem
  rw [hn] at hmem
  intro s hs
  obtain ⟨t, ht, h1, h2⟩ := h n hmem s hs
  exact ⟨t, ht, h1, hk _ h2⟩

theorem loadFriends_inv (fs : List CNode) :
    ∀ (env : NetEnv) (c : ClusterState),
    clusterCov c → mapOwned c → (∀ f ∈ fs, f.slots = []) →
    (loadFriends env c fs).2 = true →
    clusterCov (loadFriends env c fs).1 ∧ mapOwned (loadFriends env c fs).1 := by
  induction fs with
  | nil => exact fun env c hc hm _ _ => ⟨hc, hm⟩
  | cons f fs ih =>
    intro env c hc hm hempty hok
    simp only [loadFriends] at hok ⊢
    obtain ⟨i1, i2, i3, i4, _⟩ := clusterNodeLoadInfo_inv c f false
      ((env (some f.ip) f.port).bind id)
    obtain ⟨a1, _, _, _⟩ := clusterNodeLoadInfo_frame c f false
      ((env (some f.ip) f.port).bind id)
    split at hok
    · rename_i hrok
      rw [if_pos hrok]
      set r := clusterNodeLoadInfo c f false ((env (some f.ip) f.port).bind id)
      have hcovf : nodeCov c f := by
        intro s hs
        rw [hempty f (List.mem_cons_self _ _)] at hs
        exact absurd hs (List.not_mem_nil s)
      have hmvf : mapVals c f.id := by
        intro e he
        exact Or.inl (hm e he)
      have hcovr : nodeCov r.c r.node := i2 hcovf
      have hmvr : mapVals r.c r.node.id := i3 hmvf
      have hcov2 : clusterCov { r.c with nodes := r.c.nodes ++ [r.node] } := by
        intro n hn
        rcases List.mem_append.1 hn with hin | hone
        · exact clusterCov_mono c r.c a1 i1 hc n (a1 ▸ hin)
        · have hn2 : n = r.node := by simpa using hone
          rw [hn2]
          exact hcovr
      have hm2 : mapOwned { r.c with nodes := r.c.nodes ++ [r.node] } := by
        intro e he
        rcases hmvr e he with ⟨n, hn, hid⟩ | hid
        · exact ⟨n, List.mem_append_left _ hn, hid⟩
        · exact ⟨r.node, List.mem_append_right _ (List.mem_singleton.2 rfl), hid.symm⟩
      exact ih env _ hcov2 hm2
        (fun g hg => hempty g (List.mem_cons_of_mem _ hg)) hok
    · exact absurd hok (by simp)

theorem fetchClusterConfiguration_inv (env : NetEnv) (c : ClusterState)
    (ip : Option (List Char)) (port : Int)
    (hns : c.nodes = []) (hsm : c.slots_map = [])
    (hok : (fetchClusterConfiguration env c ip port).2 = true) :
    clusterCov (fetchClusterConfiguration env c ip port).1 ∧
    mapOwned (fetchClusterConfiguration env c ip port).1 := by
  simp only [fetchClusterConfiguration] at hok ⊢
  revert hok
  split
  · intro hok
    exact absurd hok (by simp)
  · rename_i reply? heq
    intro hok
    obtain ⟨i1, i2, i3, i4, i5⟩ := clusterNodeLoadInfo_inv
      (createClusterNode c ip port).1 (createClusterNode c ip port).2 true reply?
    obtain ⟨f1, _, _, _, _, _⟩ := clusterNodeLoadInfo_frame
      (createClusterNode c ip port).1 (createClusterNode c ip port).2 true reply?
    set r := clusterNodeLoadInfo (createClusterNode c ip port).1
      (createClusterNode c ip port).2 true reply? with hr
    have hcov0 : nodeCov (createClusterNode c ip port).1
        (createClusterNode c ip port).2 := by
      intro s hs
      exact absurd hs (List.not_mem_nil s)
    have hmv0 : mapVals (createClusterNode c ip port).1
        (createClusterNode c ip port).2.id := by
      intro e he
      have he2 : e ∈ c.slots_map := he
      rw [hsm] at he2
      exact absurd he2 (List.not_mem_nil e)
    have hcovr : nodeCov r.c r.node := i2 hcov0
    have hmvr : mapVals r.c r.node.id := i3 hmv0
    have hcov1 : clusterCov { r.c with nodes := r.c.nodes ++ [r.node] } := by
      intro n hn
      rcases List.mem_append.1 hn with hin | hone
      · rw [f1] at hin
        have hin2 : n ∈ c.nodes := hin
        rw [hns] at hin2
        exact absurd hin2 (List.not_mem_nil n)
      · have hn2 : n = r.node := by simpa using hone
        rw [hn2]
        exact hcovr
    have hm1 : mapOwned { r.c with nodes := r.c.nodes ++ [r.node] } := by
      intro e he
      rcases hmvr e he with ⟨n, hn, hid⟩ | hid
      · exact ⟨n, List.mem_append_left _ hn, hid⟩
      · exact ⟨r.node, List.mem_append_right _ (List.mem_singleton.2 rfl), hid.symm⟩
    revert hok
    split
    · intro hok
      exact loadFriends_inv r.friends env _ hcov1 hm1 (fun f hf => i5 f hf) hok
    · intro hok
      exact absurd hok (by simp)

/-- C1: after a successful `fetchClusterConfiguration` on a fresh cluster,
if the loaded node list covers every slot of `[0, 16383]` (each such slot
appears in some node's `slots` list), all recorded slots lie within
`[0, 16383]`, and every slot-map entry belongs to a non-replica node (a
well-formed `CLUSTER NODES` reply attaches slot specs only to master
records), then for every slot `s ∈ [0, 16383]` `searchNodeBySlot` returns a
node of the topology whose `is_replica` flag is false. -/
theorem C1_slot_coverage (env : NetEnv) (c : ClusterState)
    (ip : Option (List Char)) (port : Int)
    (hns : c.nodes = []) (hsm : c.slots_map = [])
    (hok : (fetchClusterConfiguration env c ip port).2 = true)
    (hcover : ∀ s : Int, 0 ≤ s → s ≤ 16383 →
      ∃ n, n ∈ (fetchClusterConfiguration env c ip port).1.nodes ∧ s ∈ n.slots)
    (hbound : ∀ n ∈ (fetchClusterConfiguration env c ip port).1.nodes,
      ∀ x ∈ n.slots, 0 ≤ x ∧ x ≤ 16383)
    (hmaster : ∀ e ∈ (fetchClusterConfiguration env c ip port).1.slots_map,
      ∀ n ∈ (fetchClusterConfiguration env c ip port).1.nodes,
      n.id = e.2 → n.is_replica = false) :
    ∀ s : Int, 0 ≤ s → s ≤ 16383 →
      ∃ nid,
        searchNodeBySlot (fetchClusterConfiguration env c ip port).1 s = some nid ∧
        ∃ n, n ∈ (fetchClusterConfiguration env c ip port).1.nodes ∧
          n.id = nid ∧ n.is_replica = false := by
  have hinv := fetchClusterConfiguration_inv env c ip port hns hsm hok
  intro s h0 h1
  obtain ⟨n, hn, hs⟩ := hcover s h0 h1
  obtain ⟨t, ht, hst, hk⟩ := hinv.1 n hn s hs
  have hbt := hbound n hn t ht
  have hmono : u32 s ≤ u32 t := u32_le_u32 s t h0 hst (by omega)
  have hk2 : u32 t ∈
      (fetchClusterConfiguration env c ip port).1.slots_map.map Prod.fst := hk
  obtain ⟨e, he, hek⟩ := List.mem_map.1 hk2
  obtain ⟨e2, hseek, he2⟩ := seekGe_isSome _ (u32 s)
    ⟨e, he, by rw [hek]; exact hmono⟩
  refine ⟨e2.2, ?_, ?_⟩
  · simp only [searchNodeBySlot]
    rw [hseek]
    rfl
  · obtain ⟨n2, hn2, hid⟩ := hinv.2 e2 he2
    exact ⟨n2, hn2, hid, hmaster e2 he2 n2 hn2 hid⟩

theorem processSlotToken_range_eq (c : ClusterState) (node : CNode)
    (pre post : List Char) (hhead : (pre ++ '-' :: post).head? ≠ some '[')
    (hdash : '-' ∉ pre) :
    processSlotToken (c, node) (pre ++ '-' :: post) =
      (mapSlot (mapSlot c (catoi pre) node.id) (catoi post) node.id,
       { node with slots := node.slots ++ intRange (catoi pre) (catoi post) }) := by
  have hsplit : strchrSplit '-' (pre ++ '-' :: post) = some (pre, post) :=
    strchrSplit_append '-' pre post hdash
  rcases hpre : pre ++ '-' :: post with _ | ⟨x, rest⟩
  · exact absurd hpre (by cases pre <;> simp)
  · have hx : x ≠ '[' := by
      intro h
      apply hhead
      rw [hpre, h]
      rfl
    rw [hpre] at hsplit
    simp only [processSlotToken]
    split
    · rename_i heq
      exact absurd (List.head_eq_of_cons_eq heq.symm) hx.symm
    · rw [hsplit]

/-- Witness for C1: fetching from `envFull` (one master owning `0-16383`)
succeeds, and slot `5000` resolves to a non-replica node of the topology. -/
theorem C1_slot_coverage_witness :
    fetchFull.2 = true ∧
    ∃ nid, searchNodeBySlot fetchFull.1 5000 = some nid ∧
      ∃ n, n ∈ fetchFull.1.nodes ∧ n.id = nid ∧ n.is_replica = false := by
  have hnode :
      (fetchClusterConfiguration envFull (createCluster 0 0) none 0).1.nodes =
        [(((splitOnChar ' '
            ("N 127.0.0.1:7000@17000 myself,master - 0 0 0 connected 0-16383").data).drop
              8).foldl
          processSlotToken
          ((createClusterNode (createCluster 0 0) none 0).1,
           myselfNodeUpdate
             { (createClusterNode (createCluster 0 0) none 0).2 with
               conn := { (createClusterNode (createCluster 0 0) none 0).2.conn with
                 connected := true } }
             (splitOnChar ' '
               ("N 127.0.0.1:7000@17000 myself,master - 0 0 0 connected 0-16383").data))).2] :=
    rfl
  have hdrop :
      (splitOnChar ' '
        ("N 127.0.0.1:7000@17000 myself,master - 0 0 0 connected 0-16383").data).drop 8 =
        [['0', '-', '1', '6', '3', '8', '3']] := by decide
  rw [hdrop, List.foldl_cons, List.foldl_nil,
    show (['0', '-', '1', '6', '3', '8', '3'] : List Char) =
      ['0'] ++ '-' :: ['1', '6', '3', '8', '3'] from rfl,
    processSlotToken_range_eq _ _ ['0'] ['1', '6', '3', '8', '3']
      (by decide) (by decide),
    show (myselfNodeUpdate
        { (createClusterNode (createCluster 0 0) none 0).2 with
          conn := { (createClusterNode (createCluster 0 0) none 0).2.conn with
            connected := true } }
        (splitOnChar ' '
          ("N 127.0.0.1:7000@17000 myself,master - 0 0 0 connected 0-16383").data)).slots =
      ([] : List Int) from rfl,
    List.nil_append,
    show catoi ['0'] = 0 from rfl,
    show catoi ['1', '6', '3', '8', '3'] = 16383 from rfl,
    show ∀ (x : ClusterState) (y : CNode), (Prod.mk x y).2 = y from
      fun x y => rfl] at hnode
  refine ⟨rfl, ?_⟩
  exact C1_slot_coverage envFull (createCluster 0 0) none 0 rfl rfl rfl
    (by
      intro s h0 h1
      refine ⟨_, by rw [hnode]; exact List.mem_singleton.2 rfl, ?_⟩
      exact (mem_intRange s 0 16383).2 ⟨h0, h1⟩)
    (by
      intro n hn x hx
      rw [hnode] at hn
      have hn2 := List.mem_singleton.1 hn
      subst hn2
      have hb := (mem_intRange x 0 16383).1 hx
      exact ⟨hb.1, hb.2⟩)
    (by
      intro e he n hn hid
      rw [hnode] at hn
      have hn2 := List.mem_singleton.1 hn
      subst hn2
      rfl)
    5000 (by decide) (by decide)
